import Mathlib

/-!
Verification development for the BizzHub tenant-isolation gateway and client cache.

The JavaScript sources are shallowly embedded: JS strings become `List Char`,
JSON values become the inductive `JsVal`, the Netlify handler bodies become
pure functions returning a `Decision` (an early HTTP response, or the backend
call the handler would issue).  Platform primitives (`JSON.parse`,
`Buffer.from(..,'base64')`) are modelled as function parameters, since their
implementations are not part of the repository.
-/

set_option maxRecDepth 4000

/-- JS strings are modelled as lists of characters. -/
abbrev Str := List Char

/-- Coerce a Lean string literal to the `Str` model. -/
def str (s : String) : Str := s.data

/-- JSON values (the result of `JSON.parse`); `undefined` is modelled as
`Option.none` at use sites, since JSON itself has no undefined. -/
inductive JsVal where
  | null
  | bool (b : Bool)
  | num (n : Int)
  | jstr (s : Str)
  | obj (fields : List (Str × JsVal))
  | arr (elems : List JsVal)
deriving Repr

/-- JS truthiness of a value. -/
def truthy : JsVal → Bool
  | JsVal.null => false
  | JsVal.bool b => b
  | JsVal.num n => n != 0
  | JsVal.jstr s => !s.isEmpty
  | JsVal.obj _ => true
  | JsVal.arr _ => true

/-- Property access `v.k` on a (non-null) value: only objects yield fields,
everything else gives `undefined` (`none`). -/
def getField : JsVal → Str → Option JsVal
  | JsVal.obj fs, k => fs.lookup k
  | _, _ => none

/-- `s.includes(pat)` (substring test). -/
def jsIncludes (s pat : Str) : Bool :=
  match s with
  | [] => pat.isEmpty
  | _ :: rest => pat.isPrefixOf s || jsIncludes rest pat

/-- `a || b` on possibly-undefined strings (empty string is falsy). -/
def jsOrStr (a b : Option Str) : Option Str :=
  match a with
  | some s => if s.isEmpty then b else some s
  | none => b

/-- Truthiness of a possibly-undefined string. -/
def strTruthy : Option Str → Bool
  | some s => !s.isEmpty
  | none => false

/-- `s.split(c)` for a single-character separator. -/
def jsSplitOn (c : Char) : Str → List Str
  | [] => [[]]
  | d :: rest =>
    if d = c then [] :: jsSplitOn c rest
    else
      match jsSplitOn c rest with
      | [] => [[d]]
      | h :: t => (d :: h) :: t

/-- `s.replace(pat, rep)` for string patterns: replaces the first occurrence only. -/
def jsReplaceFirst (s pat rep : Str) : Str :=
  match s with
  | [] => if pat.isEmpty then rep else []
  | c :: rest =>
    if pat.isPrefixOf s then rep ++ s.drop pat.length
    else c :: jsReplaceFirst rest pat rep

/-- Decimal rendering of a natural number (JS number-to-string for our `Int` model). -/
def natToStr (n : Nat) : Str := Nat.toDigits 10 n

/-- Comma-join of rendered array elements. -/
def joinComma : List Str → Str
  | [] => []
  | [s] => s
  | s :: rest => s ++ ',' :: joinComma rest

/-- Number of constructors of a JSON value (fuel for array rendering). -/
def jsSize : JsVal → Nat
  | JsVal.arr l => 1 + (l.attach.map (fun p => jsSize p.1)).sum
  | JsVal.obj fs => 1 + (fs.attach.map (fun p => jsSize p.1.2)).sum
  | _ => 1
decreasing_by
  · have := List.sizeOf_lt_of_mem p.2
    simp_wf
    omega
  · have h1 := List.sizeOf_lt_of_mem p.2
    have h2 : sizeOf p.1.2 < sizeOf p.1 := by
      obtain ⟨⟨a, b⟩, hp⟩ := p
      simp
    simp_wf
    omega

/-- JS `toString` coercion used by template literals; array elements render
with `null` as the empty string, joined by commas.  The recursion through
nested arrays is fuelled (the value is matched first, so every non-array case
computes independently of the fuel term). -/
def jsToStringGo (v : JsVal) (f : Nat) : Str :=
  match v with
  | JsVal.null => str "null"
  | JsVal.bool true => str "true"
  | JsVal.bool false => str "false"
  | JsVal.num n => if n < 0 then '-' :: natToStr n.natAbs else natToStr n.natAbs
  | JsVal.jstr s => s
  | JsVal.obj _ => str "[object Object]"
  | JsVal.arr l =>
    match f with
    | 0 => []
    | f + 1 =>
      joinComma (l.map (fun w =>
        match w with
        | JsVal.null => []
        | w => jsToStringGo w f))

/-- JS `toString` coercion (see `jsToStringGo`).  Non-array values never
consume fuel, so they receive a literal; arrays receive their full size. -/
def jsToString (v : JsVal) : Str :=
  match v with
  | JsVal.arr l => jsToStringGo (JsVal.arr l) (jsSize (JsVal.arr l))
  | v => jsToStringGo v 1

/-- Strict equality `v === 'lit'` between a possibly-undefined value and a string literal. -/
def jsEqStr (v : Option JsVal) (s : Str) : Bool :=
  match v with
  | some (JsVal.jstr t) => t == s
  | _ => false

/-- Strict equality `v === 'lit'` between a value and a string literal. -/
def jsValEqStr (v : JsVal) (s : Str) : Bool :=
  match v with
  | JsVal.jstr t => t == s
  | _ => false

-- Sanity checks on the JS helpers
example : jsIncludes (str "clients?user_id=eq.x") (str "user_id=") = true := by decide
example : jsIncludes (str "clients?select=*") (str "user_id=") = false := by decide
example : jsSplitOn '.' (str "a.b.c") = [str "a", str "b", str "c"] := by decide
example : jsSplitOn '.' (str "abc") = [str "abc"] := by decide
example : jsReplaceFirst (str "Bearer tok") (str "Bearer ") [] = str "tok" := by decide
example : jsOrStr (some []) (some (str "x")) = some (str "x") := by decide

/-! ## The tenant-filter rewrite of `db-proxy.js` / `db-batch.js`

`safeEndpoint.replace(/user_id=eq\.[^&]+/g, 'user_id=eq.' + id)` is modelled
by a left-to-right scan: at each position, if the literal `user_id=eq.`
followed by at least one non-`&` character matches, the match (literal plus
the maximal run of non-`&` characters) is replaced and the scan resumes after
it; otherwise the character is copied.  The recursion is fuelled by the input
length so that all definitions compute by kernel reduction. -/

/-- The literal part of the tenant-filter regex. -/
def litUid : Str := str "user_id=eq."

/-- Does the tenant-filter regex match at the head of `s`? -/
def matchesAt (s : Str) : Bool :=
  litUid.isPrefixOf s &&
    (match s.drop 11 with
     | [] => false
     | c :: _ => c != '&')

/-- The `[^&]+` value of a match at the head of `s`. -/
def takeAmpVal (s : Str) : Str := (s.drop 11).takeWhile (fun c => c != '&')

/-- The rest of the string after the match at the head of `s`. -/
def dropAmpTail (s : Str) : Str := (s.drop 11).dropWhile (fun c => c != '&')

/-- Fuelled scanner for the global regex replacement. -/
def replUidGo (id : Str) : Nat → Str → Str
  | 0, s => s
  | _ + 1, [] => []
  | f + 1, c :: rest =>
    if matchesAt (c :: rest) then
      litUid ++ id ++ replUidGo id f (dropAmpTail (c :: rest))
    else
      c :: replUidGo id f rest

/-- `s.replace(/user_id=eq\.[^&]+/g, 'user_id=eq.' + id)`. -/
def replUid (id s : Str) : Str := replUidGo id s.length s

/-- Fuelled scanner extracting the list of matched `[^&]+` values, in order. -/
def uidValuesGo : Nat → Str → List Str
  | 0, _ => []
  | _ + 1, [] => []
  | f + 1, c :: rest =>
    if matchesAt (c :: rest) then
      takeAmpVal (c :: rest) :: uidValuesGo f (dropAmpTail (c :: rest))
    else
      uidValuesGo f rest

/-- The values of all tenant-filter fragments (`user_id=eq.<value>` matches) in `s`. -/
def uidValues (s : Str) : List Str := uidValuesGo s.length s

-- Sanity checks against the JS regex behaviour
example : replUid (str "alice") (str "jobs?user_id=eq.bob&x=1") = str "jobs?user_id=eq.alice&x=1" := by decide
example : replUid (str "alice") (str "jobs?user_id=eq.a&user_id=eq.b") = str "jobs?user_id=eq.alice&user_id=eq.alice" := by decide
example : replUid (str "alice") (str "jobs?user_id=in.(a,b)") = str "jobs?user_id=in.(a,b)" := by decide
example : uidValues (str "jobs?user_id=eq.a&user_id=eq.b") = [str "a", str "b"] := by decide
example : uidValues (str "jobs?user_id=in.(a,b)") = [] := by decide
example : uidValues (str "jobs?user_id=eq.&x=1") = [] := by decide

/-! ### Characteristic equations of the scanners (fuel elimination) -/

theorem matchesAt_length_ge {s : Str} (h : matchesAt s = true) : 12 ≤ s.length := by
  unfold matchesAt at h
  rw [Bool.and_eq_true] at h
  obtain ⟨h1, h2⟩ := h
  rw [List.isPrefixOf_iff_prefix] at h1
  have hlen : litUid.length ≤ s.length := h1.length_le
  have h11 : litUid.length = 11 := rfl
  by_contra hlt
  push_neg at hlt
  have hdrop : s.drop 11 = [] := by
    apply List.eq_nil_of_length_eq_zero
    rw [List.length_drop]
    omega
  rw [hdrop] at h2
  simp at h2

theorem dropAmpTail_length {s : Str} : (dropAmpTail s).length ≤ s.length - 11 := by
  unfold dropAmpTail
  calc ((s.drop 11).dropWhile (fun c => c != '&')).length
      ≤ (s.drop 11).length := (List.dropWhile_suffix _).length_le
    _ = s.length - 11 := List.length_drop _ _

theorem replUidGo_fuel (id : Str) : ∀ f s, s.length ≤ f → replUidGo id f s = replUid id s := by
  intro f
  induction f using Nat.strong_induction_on with
  | _ f ih =>
    intro s hs
    match f, s with
    | 0, s =>
      have : s = [] := List.eq_nil_of_length_eq_zero (Nat.le_zero.mp hs)
      subst this; rfl
    | f + 1, [] => rfl
    | f + 1, c :: rest =>
      unfold replUid
      rw [show (c :: rest).length = rest.length + 1 from rfl]
      unfold replUidGo
      by_cases hm : matchesAt (c :: rest) = true
      · simp only [hm, if_true]
        have h12 := matchesAt_length_ge hm
        have hd := dropAmpTail_length (s := c :: rest)
        have hlen : (c :: rest).length = rest.length + 1 := rfl
        have hdf : (dropAmpTail (c :: rest)).length ≤ f := by omega
        have hdr : (dropAmpTail (c :: rest)).length ≤ rest.length := by omega
        rw [ih f (by omega) _ hdf, ih rest.length (by omega) _ hdr]
      · simp only [Bool.not_eq_true] at hm
        simp only [hm, Bool.false_eq_true, if_false]
        have hf : rest.length ≤ f := by
          have : (c :: rest).length = rest.length + 1 := rfl
          omega
        rw [ih f (by omega) _ hf, ih rest.length (by omega) _ (Nat.le_refl _)]

theorem uidValuesGo_fuel : ∀ f s, s.length ≤ f → uidValuesGo f s = uidValues s := by
  intro f
  induction f using Nat.strong_induction_on with
  | _ f ih =>
    intro s hs
    match f, s with
    | 0, s =>
      have : s = [] := List.eq_nil_of_length_eq_zero (Nat.le_zero.mp hs)
      subst this; rfl
    | f + 1, [] => rfl
    | f + 1, c :: rest =>
      unfold uidValues
      rw [show (c :: rest).length = rest.length + 1 from rfl]
      unfold uidValuesGo
      by_cases hm : matchesAt (c :: rest) = true
      · simp only [hm, if_true]
        have h12 := matchesAt_length_ge hm
        have hd := dropAmpTail_length (s := c :: rest)
        have hlen : (c :: rest).length = rest.length + 1 := rfl
        have hdf : (dropAmpTail (c :: rest)).length ≤ f := by omega
        have hdr : (dropAmpTail (c :: rest)).length ≤ rest.length := by omega
        rw [ih f (by omega) _ hdf, ih rest.length (by omega) _ hdr]
      · simp only [Bool.not_eq_true] at hm
        simp only [hm, Bool.false_eq_true, if_false]
        have hf : rest.length ≤ f := by
          have : (c :: rest).length = rest.length + 1 := rfl
          omega
        rw [ih f (by omega) _ hf, ih rest.length (by omega) _ (Nat.le_refl _)]

theorem replUid_nil (id : Str) : replUid id [] = [] := rfl

theorem replUid_match {id s : Str} (h : matchesAt s = true) :
    replUid id s = litUid ++ id ++ replUid id (dropAmpTail s) := by
  have h12 := matchesAt_length_ge h
  match s with
  | c :: rest =>
    show replUidGo id (rest.length + 1) (c :: rest) = _
    unfold replUidGo
    simp only [h, if_true]
    rw [replUidGo_fuel]
    have := dropAmpTail_length (s := c :: rest)
    have : (c :: rest).length = rest.length + 1 := rfl
    omega

theorem replUid_nomatch {id : Str} {c : Char} {rest : Str}
    (h : matchesAt (c :: rest) = false) :
    replUid id (c :: rest) = c :: replUid id rest := by
  show replUidGo id (rest.length + 1) (c :: rest) = _
  unfold replUidGo
  simp only [h, Bool.false_eq_true, if_false]
  rw [replUidGo_fuel]
  exact Nat.le_refl _

theorem uidValues_nil : uidValues [] = [] := rfl

theorem uidValues_match {s : Str} (h : matchesAt s = true) :
    uidValues s = takeAmpVal s :: uidValues (dropAmpTail s) := by
  have h12 := matchesAt_length_ge h
  match s with
  | c :: rest =>
    show uidValuesGo (rest.length + 1) (c :: rest) = _
    unfold uidValuesGo
    simp only [h, if_true]
    rw [uidValuesGo_fuel]
    have := dropAmpTail_length (s := c :: rest)
    have : (c :: rest).length = rest.length + 1 := rfl
    omega

theorem uidValues_nomatch {c : Char} {rest : Str}
    (h : matchesAt (c :: rest) = false) :
    uidValues (c :: rest) = uidValues rest := by
  show uidValuesGo (rest.length + 1) (c :: rest) = _
  unfold uidValuesGo
  simp only [h, Bool.false_eq_true, if_false]
  rw [uidValuesGo_fuel]
  exact Nat.le_refl _

/-! ### Structural lemmas about the rewrite -/

theorem matchesAt_amp (t : Str) : matchesAt ('&' :: t) = false := by
  unfold matchesAt
  have hlit : litUid = 'u' :: str "ser_id=eq." := by decide
  rw [hlit]
  simp [List.isPrefixOf]

theorem litUid_length : litUid.length = 11 := rfl

/-- `matchesAt` only inspects the first 12 characters. -/
theorem matchesAt_eq_of_take {s t : Str} (h : s.take 12 = t.take 12) :
    matchesAt s = matchesAt t := by
  unfold matchesAt
  have h11 : s.take 11 = t.take 11 := by
    have : (s.take 12).take 11 = (t.take 12).take 11 := by rw [h]
    simpa [List.take_take] using this
  have hpre : litUid.isPrefixOf s = litUid.isPrefixOf t := by
    rw [Bool.eq_iff_iff, List.isPrefixOf_iff_prefix, List.isPrefixOf_iff_prefix,
        List.prefix_iff_eq_take, List.prefix_iff_eq_take, litUid_length, h11]
  have hdrop : (s.drop 11).take 1 = (t.drop 11).take 1 := by
    have := congrArg (fun l => l.drop 11) h
    simpa [List.drop_take] using this
  rw [hpre]
  congr 1
  match hs : s.drop 11, ht : t.drop 11 with
  | [], [] => rfl
  | [], c :: u => rw [hs, ht] at hdrop; simp at hdrop
  | c :: u, [] => rw [hs, ht] at hdrop; simp at hdrop
  | c :: u, d :: v =>
    rw [hs, ht] at hdrop
    simp at hdrop
    rw [hdrop]

/-- `matchesAt` as a list prefix. -/
theorem matchesAt_prefix {s : Str} (h : matchesAt s = true) : litUid <+: s := by
  unfold matchesAt at h
  rw [Bool.and_eq_true] at h
  exact (List.isPrefixOf_iff_prefix).mp h.1

/-- The rewrite preserves any prefix of length at most 11. -/
theorem take_replUid (id : Str) :
    ∀ s : Str, ∀ k, k ≤ 11 → (replUid id s).take k = s.take k := by
  have main : ∀ n, ∀ s : Str, s.length ≤ n → ∀ k, k ≤ 11 →
      (replUid id s).take k = s.take k := by
    intro n
    induction n using Nat.strong_induction_on with
    | _ n ih =>
      intro s hs k hk
      match s with
      | [] => rfl
      | c :: rest =>
        by_cases hm : matchesAt (c :: rest) = true
        · rw [replUid_match hm]
          obtain ⟨t, ht⟩ := matchesAt_prefix hm
          have hleft : ∀ (x : Str), (litUid ++ x).take k = litUid.take k := by
            intro x
            rw [List.take_append_eq_append_take]
            have : k - litUid.length = 0 := by rw [litUid_length]; omega
            rw [this, List.take_zero, List.append_nil]
          calc ((litUid ++ id ++ replUid id (dropAmpTail (c :: rest)))).take k
              = (litUid ++ (id ++ replUid id (dropAmpTail (c :: rest)))).take k := by
                rw [List.append_assoc]
            _ = litUid.take k := hleft _
            _ = (litUid ++ t).take k := (hleft t).symm
            _ = (c :: rest).take k := by rw [ht]
        · rw [Bool.not_eq_true] at hm
          rw [replUid_nomatch hm]
          match k, hk with
          | 0, _ => rfl
          | k + 1, hk =>
            show c :: (replUid id rest).take k = c :: rest.take k
            congr 1
            have hlt : rest.length < n := by
              have : (c :: rest).length = rest.length + 1 := rfl
              omega
            exact ih rest.length hlt rest (Nat.le_refl _) k (by omega)
  exact fun s => main s.length s (Nat.le_refl _)

/-- A list starting with `&` (or empty) after `dropWhile (· != '&')`. -/
theorem dropWhile_amp_head (l : Str) :
    l.dropWhile (fun c => c != '&') = [] ∨
      ∃ t, l.dropWhile (fun c => c != '&') = '&' :: t := by
  induction l with
  | nil => exact Or.inl rfl
  | cons c rest ih =>
    rw [List.dropWhile_cons]
    by_cases hc : (c != '&') = true
    · simp only [hc, if_true]
      exact ih
    · rw [Bool.not_eq_true] at hc
      simp only [hc, Bool.false_eq_true, if_false]
      have hceq : c = '&' := by simpa using hc
      exact Or.inr ⟨rest, by rw [hceq]⟩

theorem dropAmpTail_amp_head (s : Str) :
    dropAmpTail s = [] ∨ ∃ t, dropAmpTail s = '&' :: t :=
  dropWhile_amp_head (s.drop 11)

/-- Scanning over a sanitized value: `takeWhile`/`dropWhile` split `id ++ X`
exactly at the boundary when `id` is `&`-free and `X` starts with `&` or ends. -/
theorem span_sanitized {id X : Str}
    (hamp : ∀ c ∈ id, (c != '&') = true)
    (hX : X = [] ∨ ∃ t, X = '&' :: t) :
    (id ++ X).takeWhile (fun c => c != '&') = id ∧
      (id ++ X).dropWhile (fun c => c != '&') = X := by
  induction id with
  | nil =>
    simp only [List.nil_append]
    rcases hX with h | ⟨t, h⟩
    · subst h; exact ⟨rfl, rfl⟩
    · subst h
      constructor
      · rw [List.takeWhile_cons_of_neg (by simp)]
      · rw [List.dropWhile_cons_of_neg (by simp)]
  | cons c rest ih =>
    have hc : (c != '&') = true := hamp c (List.mem_cons_self _ _)
    have hrest : ∀ d ∈ rest, (d != '&') = true := fun d hd => hamp d (List.mem_cons_of_mem _ hd)
    obtain ⟨h1, h2⟩ := ih hrest
    constructor
    · rw [List.cons_append, List.takeWhile_cons]
      simp only [hc, if_true]
      rw [h1]
    · rw [List.cons_append, List.dropWhile_cons]
      simp only [hc, if_true]
      exact h2

/-- The scan of `user_id=eq.` followed by a sanitized value. -/
theorem uidValues_lit_sanitized {id X : Str} (hid : id ≠ [])
    (hamp : ∀ c ∈ id, (c != '&') = true)
    (hX : X = [] ∨ ∃ t, X = '&' :: t) :
    uidValues (litUid ++ (id ++ X)) = id :: uidValues X := by
  have hdrop : (litUid ++ (id ++ X)).drop 11 = id ++ X := by
    have := List.drop_left litUid (id ++ X)
    rwa [litUid_length] at this
  have hm : matchesAt (litUid ++ (id ++ X)) = true := by
    unfold matchesAt
    rw [Bool.and_eq_true]
    constructor
    · exact (List.isPrefixOf_iff_prefix).mpr ⟨id ++ X, rfl⟩
    · rw [hdrop]
      match id, hid with
      | c :: rest, _ =>
        have hc : (c != '&') = true := hamp c (List.mem_cons_self _ _)
        simpa using hc
  rw [uidValues_match hm]
  obtain ⟨ht, hd⟩ := span_sanitized hamp hX
  unfold takeAmpVal dropAmpTail
  rw [hdrop, ht, hd]

/-- The rewrite preserves a leading `&` (or emptiness). -/
theorem replUid_amp_head {id X : Str} (hX : X = [] ∨ ∃ t, X = '&' :: t) :
    replUid id X = [] ∨ ∃ u, replUid id X = '&' :: u := by
  rcases hX with h | ⟨t, h⟩
  · subst h; exact Or.inl rfl
  · subst h
    rw [replUid_nomatch (matchesAt_amp t)]
    exact Or.inr ⟨replUid id t, rfl⟩

/-- `jsIncludes` agrees with list infix. -/
theorem jsIncludes_iff {s pat : Str} : jsIncludes s pat = true ↔ pat <:+: s := by
  induction s with
  | nil =>
    unfold jsIncludes
    simp [List.isEmpty_iff, List.infix_nil]
  | cons c rest ih =>
    unfold jsIncludes
    rw [Bool.or_eq_true, List.isPrefixOf_iff_prefix, ih]
    constructor
    · rintro (h | h)
      · exact h.isInfix
      · exact h.trans (List.suffix_cons c rest).isInfix
    · intro h
      rcases List.infix_cons_iff.mp h with h | h
      · exact Or.inl h
      · exact Or.inr h

/-- Main rewrite lemma: the global replacement rebinds every tenant-filter
value to `id`, preserving the number and positions of the fragments. -/
theorem uidValues_replUid {id : Str} (hid : id ≠ [])
    (hamp : ∀ c ∈ id, (c != '&') = true) :
    ∀ s : Str, uidValues (replUid id s) = (uidValues s).map (fun _ => id) := by
  have main : ∀ n, ∀ s : Str, s.length ≤ n →
      uidValues (replUid id s) = (uidValues s).map (fun _ => id) := by
    intro n
    induction n using Nat.strong_induction_on with
    | _ n ih =>
      intro s hs
      match s with
      | [] => rfl
      | c :: rest =>
        by_cases hm : matchesAt (c :: rest) = true
        · have h12 := matchesAt_length_ge hm
          have hDlen : (dropAmpTail (c :: rest)).length ≤ (c :: rest).length - 11 :=
            dropAmpTail_length
          have hslen : (c :: rest).length = rest.length + 1 := rfl
          rw [replUid_match hm, List.append_assoc]
          have hXamp : replUid id (dropAmpTail (c :: rest)) = [] ∨
              ∃ u, replUid id (dropAmpTail (c :: rest)) = '&' :: u :=
            replUid_amp_head (dropAmpTail_amp_head _)
          rw [uidValues_lit_sanitized hid hamp hXamp]
          rw [uidValues_match hm]
          rw [List.map_cons]
          congr 1
          exact ih (n - 1) (by omega) _ (by omega)
        · rw [Bool.not_eq_true] at hm
          rw [replUid_nomatch hm]
          have hm2 : matchesAt (c :: replUid id rest) = false := by
            rw [← hm]
            apply matchesAt_eq_of_take
            show (c :: replUid id rest).take 12 = (c :: rest).take 12
            have h1 : (c :: replUid id rest).take 12 = c :: (replUid id rest).take 11 := rfl
            have h2 : (c :: rest).take 12 = c :: rest.take 11 := rfl
            rw [h1, h2, take_replUid id rest 11 (Nat.le_refl _)]
          rw [uidValues_nomatch hm2, uidValues_nomatch hm]
          have hslen : (c :: rest).length = rest.length + 1 := rfl
          exact ih (n - 1) (by omega) rest (by omega)
  exact fun s => main s.length s (Nat.le_refl _)

/-- A string without the substring `user_id=` contains no tenant-filter fragment. -/
theorem uidValues_eq_nil_of_not_includes {s : Str}
    (h : jsIncludes s (str "user_id=") = false) : uidValues s = [] := by
  induction s with
  | nil => rfl
  | cons c rest ih =>
    unfold jsIncludes at h
    rw [Bool.or_eq_false_iff] at h
    obtain ⟨h1, h2⟩ := h
    have hm : matchesAt (c :: rest) = false := by
      by_contra hm
      rw [Bool.not_eq_false] at hm
      have hpre := matchesAt_prefix hm
      have hsub : str "user_id=" <+: litUid := by decide
      have : (str "user_id=").isPrefixOf (c :: rest) = true :=
        (List.isPrefixOf_iff_prefix).mpr (hsub.trans hpre)
      rw [this] at h1
      exact Bool.noConfusion h1
    rw [uidValues_nomatch hm]
    exact ih h2

/-- Neither `?` nor `&` occurs in the literal `user_id=eq.`. -/
theorem sep_not_mem_litUid {sep : Char} (hsep : sep = '?' ∨ sep = '&') :
    sep ∉ litUid := by
  rcases hsep with h | h <;> subst h <;> decide

theorem mem_of_index_some {l : Str} {n : Nat} {a : Char} (h : l[n]? = some a) : a ∈ l := by
  obtain ⟨hn, he⟩ := List.getElem?_eq_some_iff.mp h
  exact he ▸ l.getElem_mem hn

/-- No match can start inside or at the boundary of a `user_id=`-free string
followed by a separator. -/
theorem matchesAt_sepAppend_eq_false {A R : Str} {sep : Char}
    (hsep : sep = '?' ∨ sep = '&')
    (hA : jsIncludes A (str "user_id=") = false) :
    matchesAt (A ++ sep :: R) = false := by
  by_contra hm
  rw [Bool.not_eq_false] at hm
  obtain ⟨t, ht⟩ := matchesAt_prefix hm
  by_cases hlen : 11 ≤ A.length
  · have htake : (litUid ++ t).take 11 = litUid := by
      rw [List.take_append_eq_append_take]
      have h0 : 11 - litUid.length = 0 := rfl
      rw [h0, List.take_zero, List.append_nil]
      decide
    have htakeA : (A ++ sep :: R).take 11 = A.take 11 := by
      rw [List.take_append_eq_append_take]
      have : 11 - A.length = 0 := by omega
      rw [this, List.take_zero, List.append_nil]
    have hlitA : litUid = A.take 11 := by rw [← htake, ht, htakeA]
    have hpreA : litUid <+: A := hlitA ▸ List.take_prefix 11 A
    have hsubA : str "user_id=" <+: A := (by decide : str "user_id=" <+: litUid).trans hpreA
    have : jsIncludes A (str "user_id=") = true := jsIncludes_iff.mpr hsubA.isInfix
    rw [this] at hA
    exact Bool.noConfusion hA
  · push_neg at hlen
    have hidx : (A ++ sep :: R)[A.length]? = some sep := by
      rw [List.getElem?_append_right (Nat.le_refl _)]
      simp
    have hidx2 : (litUid ++ t)[A.length]? = litUid[A.length]? :=
      List.getElem?_append_left (by rw [litUid_length]; omega)
    rw [ht, hidx] at hidx2
    exact sep_not_mem_litUid hsep (mem_of_index_some hidx2.symm)

/-- Appending `sep ++ user_id=eq.<id>` to a `user_id=`-free endpoint yields
exactly one tenant-filter fragment, bound to `id`. -/
theorem uidValues_append_filter {A id : Str} {sep : Char}
    (hsep : sep = '?' ∨ sep = '&')
    (hA : jsIncludes A (str "user_id=") = false)
    (hid : id ≠ []) (hamp : ∀ c ∈ id, (c != '&') = true) :
    uidValues (A ++ sep :: (litUid ++ id)) = [id] := by
  induction A with
  | nil =>
    rw [List.nil_append]
    have hm : matchesAt (sep :: (litUid ++ id)) = false := by
      unfold matchesAt
      have : litUid.isPrefixOf (sep :: (litUid ++ id)) = false := by
        rw [Bool.eq_false_iff]
        intro hpre
        obtain ⟨t, ht⟩ := (List.isPrefixOf_iff_prefix).mp hpre
        have hidx : (litUid ++ t)[0]? = some sep := by rw [ht]; rfl
        rw [List.getElem?_append_left (by rw [litUid_length]; omega)] at hidx
        exact sep_not_mem_litUid hsep (mem_of_index_some hidx)
      rw [this]
      rfl
    rw [uidValues_nomatch hm]
    have := uidValues_lit_sanitized hid hamp (Or.inl rfl)
    rw [List.append_nil] at this
    rw [this, uidValues_nil]
  | cons c rest ih =>
    have h2 : jsIncludes rest (str "user_id=") = false := by
      unfold jsIncludes at hA
      rw [Bool.or_eq_false_iff] at hA
      exact hA.2
    have hm : matchesAt ((c :: rest) ++ sep :: (litUid ++ id)) = false :=
      matchesAt_sepAppend_eq_false hsep hA
    rw [List.cons_append]
    rw [List.cons_append] at hm
    rw [uidValues_nomatch hm]
    exact ih h2

/-! ## Endpoint and body rewriting (db-proxy.js lines 65–81, db-batch.js lines 71–77) -/

/-- db-proxy.js lines 66–75: rewrite the raw endpoint for the single-call proxy.
If the endpoint contains `user_id=`, globally replace `user_id=eq.<value>`
fragments; otherwise, append a `user_id=eq.<id>` filter only when the method is
neither `POST` nor `PATCH`. -/
def proxySafeEndpoint (authenticatedUserId : Str) (method : Option JsVal)
    (endpoint : Str) : Str :=
  if jsIncludes endpoint (str "user_id=") then
    replUid authenticatedUserId endpoint
  else if !(jsEqStr method (str "POST")) && !(jsEqStr method (str "PATCH")) then
    endpoint ++
      (if jsIncludes endpoint (str "?") then str "&" else str "?") ++
      litUid ++ authenticatedUserId
  else
    endpoint

/-- db-batch.js lines 72–77: rewrite a batch sub-request endpoint (always GET,
so the filter is appended whenever no `user_id=` substring is present). -/
def batchSafeEndpoint (authenticatedUserId : Str) (endpoint : Str) : Str :=
  if jsIncludes endpoint (str "user_id=") then
    replUid authenticatedUserId endpoint
  else
    endpoint ++
      (if jsIncludes endpoint (str "?") then str "&" else str "?") ++
      litUid ++ authenticatedUserId

/-- Replace the value at a key in place, or append the binding (JS object
update semantics for `{ ...body, user_id: id }` when the key may pre-exist). -/
def setField : List (Str × JsVal) → Str → JsVal → List (Str × JsVal)
  | [], k, v => [(k, v)]
  | (k', v') :: rest, k, v =>
    if k' = k then (k', v) :: rest else (k', v') :: setField rest k v

/-- Array elements become own enumerable properties `"0"`, `"1"`, … under spread. -/
def enumFields (l : List JsVal) : List (Str × JsVal) :=
  (l.enum).map (fun p => (natToStr p.1, p.2))

/-- String characters become index properties under spread. -/
def enumChars (s : Str) : List (Str × JsVal) :=
  (s.enum).map (fun p => (natToStr p.1, JsVal.jstr [p.2]))

/-- `{ ...body, user_id: uid }`: spreading an object keeps its fields and
forces `user_id`; spreading an array or string produces an *object* with index
keys; spreading a primitive contributes no properties. -/
def spreadWithUserId : JsVal → JsVal → JsVal
  | JsVal.obj fs, uid => JsVal.obj (setField fs (str "user_id") uid)
  | JsVal.arr l, uid => JsVal.obj (enumFields l ++ [(str "user_id", uid)])
  | JsVal.jstr s, uid => JsVal.obj (enumChars s ++ [(str "user_id", uid)])
  | _, uid => JsVal.obj [(str "user_id", uid)]

/-- db-proxy.js lines 77–81: `let safeBody = body; if (body && (method === 'POST'
|| method === 'PATCH')) safeBody = { ...body, user_id: authenticatedUserId };`. -/
def proxySafeBody (method : Option JsVal) (body : Option JsVal)
    (authenticatedUserId : JsVal) : Option JsVal :=
  match body with
  | some v =>
    if truthy v && (jsEqStr method (str "POST") || jsEqStr method (str "PATCH")) then
      some (spreadWithUserId v authenticatedUserId)
    else
      some v
  | none => none

/-- Is a JSON value an array? -/
def isArr : JsVal → Bool
  | JsVal.arr _ => true
  | _ => false

-- Sanity checks
example : proxySafeEndpoint (str "alice") (some (JsVal.jstr (str "GET")))
    (str "clients?select=*") = str "clients?select=*&user_id=eq.alice" := by decide
example : proxySafeEndpoint (str "alice") (some (JsVal.jstr (str "POST"))) (str "jobs")
    = str "jobs" := by decide
example : proxySafeEndpoint (str "alice") (some (JsVal.jstr (str "GET")))
    (str "clients?user_id=eq.bob&select=*") = str "clients?user_id=eq.alice&select=*" := by decide
example : batchSafeEndpoint (str "alice") (str "jobs") = str "jobs?user_id=eq.alice" := by decide
example : proxySafeBody (some (JsVal.jstr (str "POST")))
    (some (JsVal.obj [(str "name", JsVal.jstr (str "x")), (str "user_id", JsVal.jstr (str "bob"))]))
    (JsVal.jstr (str "alice"))
    = some (JsVal.obj [(str "name", JsVal.jstr (str "x")), (str "user_id", JsVal.jstr (str "alice"))]) := by rfl

/-! ## The Netlify function handlers

Each handler is modelled up to its interaction with the backing store: it
either produces an early HTTP response or names the backend call(s) it would
issue.  The platform primitives `JSON.parse` (for the request body) and
`JSON.parse ∘ Buffer.from(·, 'base64').toString()` (for the JWT payload
segment) are passed in as functions `parse` and `dec`. -/

/-- The handler's observable outcome before any network activity. -/
inductive Decision where
  | respond (status : Nat) (body : JsVal)
  | fetchBackend (method : Str) (url : Str) (body : Option JsVal)
  | fetchBatch (calls : List (Option JsVal × Str))

/-- Does a decision reach out to the backing store? -/
def decisionContactsBackend : Decision → Bool
  | Decision.respond _ _ => false
  | Decision.fetchBackend _ _ _ => true
  | Decision.fetchBatch _ => true

/-- `SUPABASE_URL.replace(/\/$/, '')`. -/
def stripTrailingSlash (s : Str) : Str :=
  match s.reverse with
  | '/' :: t => t.reverse
  | _ => s

/-- `event.body || '{}'`. -/
def rawOrEmptyObj (b : Option Str) : Str :=
  match b with
  | some s => if s.isEmpty then str "\x7b\x7d" else s
  | none => str "\x7b\x7d"

/-- Decoding the JWT payload segment: `token.split('.')[1]` then base64+parse;
`Buffer.from(undefined)`, a parse failure, and `null.sub` all throw inside the
same `try`, yielding the `Invalid token` response. -/
def decodeSubClaim (token : Str) (dec : Str → Option JsVal) : Except Unit JsVal :=
  match (jsSplitOn '.' token)[1]? with
  | none => Except.error ()
  | some seg =>
    match dec seg with
    | none => Except.error ()
    | some JsVal.null => Except.error ()
    | some payload => Except.ok payload

/-- db-proxy.js 401 body for a missing/malformed Authorization header. -/
def proxyNoTokenBody : JsVal :=
  JsVal.obj [(str "error", JsVal.jstr (str "Not authenticated - no token provided"))]

/-- db-batch.js 401 body for a missing/malformed Authorization header. -/
def batchNoTokenBody : JsVal :=
  JsVal.obj [(str "error", JsVal.jstr (str "Not authenticated"))]

/-- Shared 401 body for an undecodable token. -/
def invalidTokenBody : JsVal :=
  JsVal.obj [(str "error", JsVal.jstr (str "Invalid token"))]

/-- Shared 401 body for a token without a usable subject claim. -/
def noUserIdBody : JsVal :=
  JsVal.obj [(str "error", JsVal.jstr (str "No user ID in token"))]

/-- db-proxy.js 502 body when the Supabase configuration is missing: a fixed
literal that names the expected environment variables but carries no values. -/
def configMissingBody : JsVal :=
  JsVal.obj
    [(str "error", JsVal.jstr (str "server_configuration_missing")),
     (str "message", JsVal.jstr (str "Supabase configuration not available in function runtime. Ensure SUPABASE_URL and SUPABASE_KEY are defined in your Netlify Site > Site settings > Environment variables (and redeploy)."))]

/-- db-batch.js 502 body when the Supabase configuration is missing. -/
def batchConfigMissingBody : JsVal :=
  JsVal.obj [(str "error", JsVal.jstr (str "server_configuration_missing"))]

/-- Catch-all 500 body (`{ error: 'function_error', message: ... }`); the
message models the runtime's exception text. -/
def functionErrorBody (msg : Str) : JsVal :=
  JsVal.obj
    [(str "error", JsVal.jstr (str "function_error")),
     (str "message", JsVal.jstr msg)]

/-- A handler invocation: the HTTP method, the two casings of the
Authorization header, and the raw request body. -/
structure HandlerEvent where
  httpMethod : Str
  authLower : Option Str
  authCap : Option Str
  rawBody : Option Str

/-- The environment variables and optional local-secrets file consulted by
db-proxy.js (the `tryLoadLocalSecrets` result is the already-folded
`{url, key}` pair, `none` when the file is missing or unreadable). -/
structure ProxyEnv where
  supabaseUrl : Option Str
  nextPublicSupabaseUrl : Option Str
  supabaseUrlPublic : Option Str
  supabaseKey : Option Str
  supabaseServiceRoleKey : Option Str
  supabaseAnonKey : Option Str
  supabaseUrlValue : Option Str
  supabaseKeyValue : Option Str
  localUrl : Option Str
  localKey : Option Str

/-- db-proxy.js lines 84–96: the configuration fallback chain. -/
def resolveProxyConfig (env : ProxyEnv) : Option Str × Option Str :=
  let u0 := jsOrStr (jsOrStr env.supabaseUrl env.nextPublicSupabaseUrl) env.supabaseUrlPublic
  let k0 := jsOrStr (jsOrStr env.supabaseKey env.supabaseServiceRoleKey) env.supabaseAnonKey
  let u1 := if strTruthy u0 then u0 else env.supabaseUrlValue
  let k1 := if strTruthy k0 then k0 else env.supabaseKeyValue
  if !(strTruthy u1) || !(strTruthy k1) then
    (jsOrStr u1 env.localUrl, jsOrStr k1 env.localKey)
  else
    (u1, k1)

/-- The environment consulted by db-batch.js. -/
structure BatchEnv where
  supabaseUrl : Option Str
  supabaseKey : Option Str

/-- db-proxy.js `exports.handler`, embedded as a decision function. -/
def dbProxyHandler (ev : HandlerEvent) (parse dec : Str → Option JsVal)
    (env : ProxyEnv) : Decision :=
  if ev.httpMethod ≠ str "POST" then
    Decision.respond 405 (JsVal.jstr (str "Method Not Allowed"))
  else
    match jsOrStr ev.authLower ev.authCap with
    | none => Decision.respond 401 proxyNoTokenBody
    | some authHeader =>
      if !((str "Bearer ").isPrefixOf authHeader) then
        Decision.respond 401 proxyNoTokenBody
      else
        match decodeSubClaim (jsReplaceFirst authHeader (str "Bearer ") []) dec with
        | Except.error _ => Decision.respond 401 invalidTokenBody
        | Except.ok payload =>
          match getField payload (str "sub") with
          | none => Decision.respond 401 noUserIdBody
          | some subv =>
            if truthy subv then
              match parse (rawOrEmptyObj ev.rawBody) with
              | none => Decision.respond 500 (functionErrorBody (str "request body is not valid JSON"))
              | some JsVal.null => Decision.respond 500 (functionErrorBody (str "cannot destructure null request body"))
              | some parsed =>
                let methodV := getField parsed (str "method")
                match getField parsed (str "endpoint") with
                | some (JsVal.jstr endpoint) =>
                  let safeEndpoint := proxySafeEndpoint (jsToString subv) methodV endpoint
                  let safeBody := proxySafeBody methodV (getField parsed (str "body")) subv
                  let cfg := resolveProxyConfig env
                  if !(strTruthy cfg.1) || !(strTruthy cfg.2) then
                    Decision.respond 502 configMissingBody
                  else
                    Decision.fetchBackend
                      (match methodV with
                       | some v => if truthy v then jsToString v else str "GET"
                       | none => str "GET")
                      (stripTrailingSlash (cfg.1.getD []) ++ str "/rest/v1/" ++ safeEndpoint)
                      (match safeBody with
                       | some v => if truthy v then some v else none
                       | none => none)
                | _ => Decision.respond 500 (functionErrorBody (str "endpoint is not a string"))
            else Decision.respond 401 noUserIdBody

/-- db-batch.js lines 67–79: build the per-sub-request backend calls; a `null`
or endpoint-less sub-request makes the whole `Promise.all` reject (500). -/
def batchPrepare (uid baseUrl : Str) : List JsVal → Option (List (Option JsVal × Str))
  | [] => some []
  | r :: rest =>
    match r with
    | JsVal.null => none
    | _ =>
      match getField r (str "endpoint") with
      | some (JsVal.jstr e) =>
        match batchPrepare uid baseUrl rest with
        | some l =>
          some ((getField r (str "key"),
                 stripTrailingSlash baseUrl ++ str "/rest/v1/" ++ batchSafeEndpoint uid e) :: l)
        | none => none
      | _ => none

/-- db-batch.js `handler`, embedded as a decision function. -/
def dbBatchHandler (ev : HandlerEvent) (parse dec : Str → Option JsVal)
    (env : BatchEnv) : Decision :=
  if ev.httpMethod ≠ str "POST" then
    Decision.respond 405 (JsVal.obj [(str "error", JsVal.jstr (str "Method Not Allowed"))])
  else
    match jsOrStr ev.authLower ev.authCap with
    | none => Decision.respond 401 batchNoTokenBody
    | some authHeader =>
      if !((str "Bearer ").isPrefixOf authHeader) then
        Decision.respond 401 batchNoTokenBody
      else
        match decodeSubClaim (jsReplaceFirst authHeader (str "Bearer ") []) dec with
        | Except.error _ => Decision.respond 401 invalidTokenBody
        | Except.ok payload =>
          match getField payload (str "sub") with
          | none => Decision.respond 401 noUserIdBody
          | some subv =>
            if truthy subv then
              if !(strTruthy env.supabaseUrl) || !(strTruthy env.supabaseKey) then
                Decision.respond 502 batchConfigMissingBody
              else
                match parse (rawOrEmptyObj ev.rawBody) with
                | none => Decision.respond 500 (functionErrorBody (str "request body is not valid JSON"))
                | some JsVal.null => Decision.respond 500 (functionErrorBody (str "cannot destructure null request body"))
                | some parsed =>
                  match getField parsed (str "requests") with
                  | some (JsVal.arr reqs) =>
                    match batchPrepare (jsToString subv) (env.supabaseUrl.getD []) reqs with
                    | some calls => Decision.fetchBatch calls
                    | none => Decision.respond 500 (functionErrorBody (str "sub-request preparation failure"))
                  | _ => Decision.respond 400 (JsVal.obj [(str "error", JsVal.jstr (str "requests must be an array"))])
            else Decision.respond 401 noUserIdBody

/-! ## Batch response assembly (db-batch.js lines 81–112) -/

/-- Outcome of one sub-request's `fetch`: either a response (status plus the
value produced by `res.json()`) or a thrown error (network failure or a
non-JSON body), which the inner `catch` converts to `status: 500`. -/
inductive FetchOut where
  | ok (status : Nat) (data : JsVal)
  | errOut

/-- One settled element of the `Promise.all` result array. -/
structure SubResult where
  key : Option JsVal
  out : FetchOut

/-- `result.status`. -/
def subStatus (r : SubResult) : Nat :=
  match r.out with
  | FetchOut.ok s _ => s
  | FetchOut.errOut => 500

/-- `v[0]`: indexing throws on `null` (which would fail the whole batch). -/
def jsIndexZero : JsVal → Except Unit (Option JsVal)
  | JsVal.null => Except.error ()
  | JsVal.arr [] => Except.ok none
  | JsVal.arr (h :: _) => Except.ok (some h)
  | JsVal.obj fs => Except.ok (fs.lookup (str "0"))
  | JsVal.jstr [] => Except.ok none
  | JsVal.jstr (c :: _) => Except.ok (some (JsVal.jstr [c]))
  | JsVal.num _ => Except.ok none
  | JsVal.bool _ => Except.ok none

/-- The value stored under a result's key: `result.key === 'business' ?
result.data[0] : result.data` (only consulted when the status is 200). -/
def subValue (r : SubResult) : Except Unit (Option JsVal) :=
  match r.out with
  | FetchOut.ok _ d =>
    if jsValEqStr (r.key.getD JsVal.null) (str "business") then jsIndexZero d
    else Except.ok (some d)
  | FetchOut.errOut => Except.ok none

/-- The property name a key is stored under (`undefined` keys stringify). -/
def jsToStringOpt : Option JsVal → Str
  | none => str "undefined"
  | some v => jsToString v

/-- JS object property assignment `resp[k] = v` (replace in place or append);
the value may be `undefined`. -/
def upsertOpt : List (Str × Option JsVal) → Str → Option JsVal → List (Str × Option JsVal)
  | [], k, v => [(k, v)]
  | (k', v') :: rest, k, v =>
    if k' = k then (k', v) :: rest else (k', v') :: upsertOpt rest k v

/-- db-batch.js lines 100–106: fold the settled results into the response
object, keeping only `status === 200` entries; `none` models a thrown
indexing error (which would 500 the whole call). -/
def buildBatchGo : List SubResult → List (Str × Option JsVal) →
    Option (List (Str × Option JsVal))
  | [], acc => some acc
  | r :: rest, acc =>
    if subStatus r = 200 then
      match subValue r with
      | Except.error _ => none
      | Except.ok v => buildBatchGo rest (upsertOpt acc (jsToStringOpt r.key) v)
    else
      buildBatchGo rest acc

/-- The response object assembled from the settled results. -/
def buildBatchResponse (results : List SubResult) :
    Option (List (Str × Option JsVal)) :=
  buildBatchGo results []

/-- `JSON.stringify` drops properties whose value is `undefined`. -/
def serializeResp (l : List (Str × Option JsVal)) : List (Str × JsVal) :=
  l.filterMap (fun p => p.2.map (fun v => (p.1, v)))

/-- The batch handler's final response: HTTP 200 with the keyed object, or the
catch-all 500 if assembling the response threw. -/
def batchRespond (results : List SubResult) : Decision :=
  match buildBatchResponse results with
  | some acc => Decision.respond 200 (JsVal.obj (serializeResp acc))
  | none => Decision.respond 500 (functionErrorBody (str "response assembly failure"))

/-! ## The client cache (`Database` class of the optimized Supabase adapter) -/

/-- One cache slot: `{ data, timestamp }`. -/
structure CacheEntry where
  data : JsVal
  timestamp : Nat

/-- The `Database` client state: `userId`, the cache object, and the TTL
(`cacheTimeout`, set to 30000 by the constructor). -/
structure Database where
  userId : Str
  cache : List (Str × CacheEntry)
  cacheTimeout : Nat

/-- `new Database()` followed by `setUser(userId)`. -/
def Database.init (userId : Str) : Database :=
  { userId := userId, cache := [], cacheTimeout := 30000 }

/-- `getCacheKey(endpoint)`: `` `${this.userId}:${endpoint}` ``. -/
def Database.getCacheKey (db : Database) (endpoint : Str) : Str :=
  db.userId ++ ':' :: endpoint

/-- `getFromCache(key)`: return the entry's data only while its age is
strictly below the TTL (`Date.now()` is the explicit `now`). -/
def Database.getFromCache (db : Database) (now : Nat) (key : Str) : Option JsVal :=
  match db.cache.lookup key with
  | some cached => if now - cached.timestamp < db.cacheTimeout then some cached.data else none
  | none => none

/-- `setCache(key, data)`. -/
def Database.setCache (db : Database) (now : Nat) (key : Str) (data : JsVal) : Database :=
  { db with cache := upsertEntry db.cache key ⟨data, now⟩ }
where
  upsertEntry : List (Str × CacheEntry) → Str → CacheEntry → List (Str × CacheEntry)
    | [], k, e => [(k, e)]
    | (k', e') :: rest, k, e =>
      if k' = k then (k', e) :: rest else (k', e') :: upsertEntry rest k e

/-- `clearCache(pattern)`: a falsy pattern empties the cache, otherwise every
key containing the pattern is deleted. -/
def Database.clearCache (db : Database) (pattern : Option Str) : Database :=
  match pattern with
  | none => { db with cache := [] }
  | some p =>
    if p.isEmpty then { db with cache := [] }
    else { db with cache := db.cache.filter (fun kv => !(jsIncludes kv.1 p)) }

/-- `setUser(userId)`: switch tenant and clear the whole cache. -/
def Database.setUser (db : Database) (userId : Str) : Database :=
  { db with userId := userId, cache := [] }

/-- Cache effect of a successful `create(table, …)`:
`clearCache(table); clearCache('dashboard')`. -/
def Database.createCacheEffect (db : Database) (table : Str) : Database :=
  (db.clearCache (some table)).clearCache (some (str "dashboard"))

/-- Cache effect of a successful `update(table, …)`. -/
def Database.updateCacheEffect (db : Database) (table : Str) : Database :=
  (db.clearCache (some table)).clearCache (some (str "dashboard"))

/-- Cache effect of a successful `softDelete` (an `update` plus `clearCache('trash')`). -/
def Database.softDeleteCacheEffect (db : Database) (table : Str) : Database :=
  (db.updateCacheEffect table).clearCache (some (str "trash"))

/-- Cache effect of a successful `hardDelete`. -/
def Database.hardDeleteCacheEffect (db : Database) (table : Str) : Database :=
  (((db.clearCache (some table)).clearCache (some (str "dashboard"))).clearCache (some (str "trash")))

/-- Cache effect of a successful `restore` (an `update` plus `clearCache('trash')`). -/
def Database.restoreCacheEffect (db : Database) (table : Str) : Database :=
  (db.updateCacheEffect table).clearCache (some (str "trash"))

/-- The five mutating operations of the adapter. -/
inductive MutKind where
  | create
  | update
  | softDelete
  | hardDelete
  | restore

/-- The cache effect of a successful mutation of the given kind on a table. -/
def mutationCacheEffect : MutKind → Database → Str → Database
  | MutKind.create, db, t => db.createCacheEffect t
  | MutKind.update, db, t => db.updateCacheEffect t
  | MutKind.softDelete, db, t => db.softDeleteCacheEffect t
  | MutKind.hardDelete, db, t => db.hardDeleteCacheEffect t
  | MutKind.restore, db, t => db.restoreCacheEffect t

/-- Cache operations that may happen between an invalidation and a lookup. -/
inductive CacheOp where
  | setOp (now : Nat) (key : Str) (data : JsVal)
  | clearOp (pattern : Option Str)
  | setUserOp (userId : Str)

/-- Apply one cache operation. -/
def applyCacheOp (db : Database) : CacheOp → Database
  | CacheOp.setOp now key data => db.setCache now key data
  | CacheOp.clearOp pattern => db.clearCache pattern
  | CacheOp.setUserOp userId => db.setUser userId

/-- Apply a sequence of cache operations, oldest first. -/
def applyCacheOps (db : Database) : List CacheOp → Database
  | [] => db
  | op :: rest => applyCacheOps (applyCacheOp db op) rest

/-- Does an operation set the given key? -/
def opSetsKey (key : Str) : CacheOp → Bool
  | CacheOp.setOp _ k _ => k == key
  | _ => false

/-! ## Read endpoints and the backing store's filter semantics (claim C10) -/

/-- The tables that `getAll` filters by the soft-delete flag. -/
def softDeleteTables : List Str :=
  [str "clients", str "jobs", str "timesheets", str "invoices", str "business"]

/-- The endpoint issued by `Database.getAll(table)`:
`` `${table}?user_id=eq.${this.userId}${softDeleteFilter}&order=created_at.desc&select=*` ``
with `softDeleteFilter = '&deleted=eq.false'` exactly for the five
soft-deleting tables. -/
def Database.getAllEndpoint (db : Database) (table : Str) : Str :=
  table ++ str "?user_id=eq." ++ db.userId ++
    (if softDeleteTables.contains table then str "&deleted=eq.false" else []) ++
    str "&order=created_at.desc&select=*"

/-- The four tables read by `Database.getTrash()`. -/
def trashTables : List Str :=
  [str "clients", str "jobs", str "timesheets", str "invoices"]

/-- The per-table endpoint issued by `Database.getTrash()`:
`` `${table}?user_id=eq.${this.userId}&deleted=eq.true&order=updated_at.desc&select=*` ``. -/
def Database.getTrashEndpoint (db : Database) (table : Str) : Str :=
  table ++ str "?user_id=eq." ++ db.userId ++ str "&deleted=eq.true&order=updated_at.desc&select=*"

/-- The query string: everything after the first `?`. -/
def afterQuestionMark : Str → Str
  | [] => []
  | c :: rest => if c = '?' then rest else afterQuestionMark rest

/-- Split a query string into `&`-separated fragments. -/
def splitAmp : Str → List Str
  | [] => [[]]
  | c :: rest =>
    if c = '&' then [] :: splitAmp rest
    else
      match splitAmp rest with
      | [] => [[c]]
      | h :: t => (c :: h) :: t

/-- Index of the first occurrence of `pat` in `s`. -/
def findSub (s pat : Str) : Option Nat :=
  match s with
  | [] => if pat.isEmpty then some 0 else none
  | _ :: rest =>
    if pat.isPrefixOf s then some 0
    else (findSub rest pat).map (· + 1)

/-- Parse one query fragment of the shape `<column>=eq.<value>`. -/
def parseEqFragment (frag : Str) : Option (Str × Str) :=
  match findSub frag (str "=eq.") with
  | none => none
  | some i => some (frag.take i, frag.drop (i + 4))

/-- All `eq` filters carried by an endpoint's query string. -/
def parseEqFilters (endpoint : Str) : List (Str × Str) :=
  (splitAmp (afterQuestionMark endpoint)).filterMap parseEqFragment

/-- Modelled from the spec: the backing store (the Supabase/PostgREST REST
interface) is not part of this repository; per §3 ("each tenant-scoped table
has a tenant column used for the predicate") and the §8 scenarios, an `eq`
filter keeps exactly the rows whose column value equals the filter value.
Rows are modelled as string-valued records (booleans stringified). -/
def rowMatches (filters : List (Str × Str)) (row : List (Str × Str)) : Bool :=
  filters.all (fun f => row.lookup f.1 == some f.2)

/-- Modelled from the spec: the rows the backing store returns for a filtered
read — those satisfying every `eq` filter of the endpoint. -/
def runQuery (rows : List (List (Str × Str))) (endpoint : Str) : List (List (Str × Str)) :=
  rows.filter (rowMatches (parseEqFilters endpoint))

-- Sanity checks
example : parseEqFilters ((Database.init (str "alice")).getAllEndpoint (str "jobs"))
    = [(str "user_id", str "alice"), (str "deleted", str "false")] := by decide
example : parseEqFilters ((Database.init (str "alice")).getAllEndpoint (str "notes"))
    = [(str "user_id", str "alice")] := by decide
example : parseEqFilters ((Database.init (str "alice")).getTrashEndpoint (str "jobs"))
    = [(str "user_id", str "alice"), (str "deleted", str "true")] := by decide

/-! ## Cache lemmas -/

theorem lookup_filter_pattern_none {c : List (Str × CacheEntry)} {p key : Str}
    (h : jsIncludes key p = true) :
    (c.filter (fun kv => !(jsIncludes kv.1 p))).lookup key = none := by
  induction c with
  | nil => rfl
  | cons kv rest ih =>
    rw [List.filter_cons]
    by_cases hkv : (!(jsIncludes kv.1 p)) = true
    · simp only [hkv, if_true]
      have hne : (key == kv.1) = false := by
        rw [beq_eq_false_iff_ne]
        intro he
        rw [← he, h] at hkv
        simp at hkv
      rw [List.lookup_cons]
      simp only [hne]
      exact ih
    · rw [Bool.not_eq_true] at hkv
      simp only [hkv, Bool.false_eq_true, if_false]
      exact ih

theorem lookup_filter_none_of_none {c : List (Str × CacheEntry)} {key : Str}
    {q : Str × CacheEntry → Bool} (h : c.lookup key = none) :
    (c.filter q).lookup key = none := by
  induction c with
  | nil => rfl
  | cons kv rest ih =>
    rw [List.lookup_cons] at h
    by_cases hk : (key == kv.1) = true
    · simp only [hk] at h
      simp at h
    · rw [Bool.not_eq_true] at hk
      simp only [hk] at h
      rw [List.filter_cons]
      by_cases hq : q kv = true
      · simp only [hq, if_true]
        rw [List.lookup_cons]
        simp only [hk]
        exact ih h
      · rw [Bool.not_eq_true] at hq
        simp only [hq, Bool.false_eq_true, if_false]
        exact ih h

/-- After `clearCache` with a falsy pattern or a pattern contained in `key`,
the key is gone. -/
theorem lookup_clearCache_none {db : Database} {key : Str} {pat : Option Str}
    (h : pat = none ∨ ∃ p, pat = some p ∧ jsIncludes key p = true) :
    (db.clearCache pat).cache.lookup key = none := by
  rcases h with h | ⟨p, hp, hinc⟩
  · subst h; rfl
  · subst hp
    unfold Database.clearCache
    by_cases hp0 : p.isEmpty = true
    · simp only [hp0, if_true]
      rfl
    · rw [Bool.not_eq_true] at hp0
      simp only [hp0, Bool.false_eq_true, if_false]
      exact lookup_filter_pattern_none hinc

/-- `clearCache` never resurrects a key. -/
theorem lookup_clearCache_preserve_none {db : Database} {key : Str} {pat : Option Str}
    (h : db.cache.lookup key = none) :
    (db.clearCache pat).cache.lookup key = none := by
  unfold Database.clearCache
  match pat with
  | none => rfl
  | some p =>
    by_cases hp0 : p.isEmpty = true
    · simp only [hp0, if_true]
      rfl
    · rw [Bool.not_eq_true] at hp0
      simp only [hp0, Bool.false_eq_true, if_false]
      exact lookup_filter_none_of_none h

/-- `upsertEntry` for a different key preserves absence. -/
theorem lookup_upsertEntry_ne {c : List (Str × CacheEntry)} {key k : Str} {e : CacheEntry}
    (hne : (k == key) = false) (h : c.lookup key = none) :
    (Database.setCache.upsertEntry c k e).lookup key = none := by
  have hne2 : (key == k) = false := by
    rw [beq_eq_false_iff_ne] at hne ⊢
    exact fun he => hne he.symm
  induction c with
  | nil =>
    unfold Database.setCache.upsertEntry
    rw [List.lookup_cons]
    simp [hne2]
  | cons kv rest ih =>
    rw [List.lookup_cons] at h
    by_cases hk : (key == kv.1) = true
    · simp only [hk] at h
      simp at h
    · rw [Bool.not_eq_true] at hk
      simp only [hk] at h
      unfold Database.setCache.upsertEntry
      by_cases hkk : kv.1 = k
      · simp only [hkk, if_true]
        rw [List.lookup_cons]
        have hk2 : (key == kv.1) = false := hk
        rw [hkk] at hk2
        simp only [hk2]
        exact h
      · simp only [hkk, if_false]
        rw [List.lookup_cons]
        simp only [hk]
        exact ih h

/-- `setCache` of a different key preserves absence. -/
theorem lookup_setCache_preserve_none {db : Database} {key k : Str} {now : Nat} {d : JsVal}
    (hne : (k == key) = false) (h : db.cache.lookup key = none) :
    (db.setCache now k d).cache.lookup key = none :=
  lookup_upsertEntry_ne hne h

/-- An absent key stays absent under any later operations that do not set it. -/
theorem lookup_none_applyCacheOps {db : Database} {key : Str} {ops : List CacheOp}
    (h : db.cache.lookup key = none)
    (hops : ∀ op ∈ ops, opSetsKey key op = false) :
    (applyCacheOps db ops).cache.lookup key = none := by
  induction ops generalizing db with
  | nil => exact h
  | cons op rest ih =>
    have hop := hops op (List.mem_cons_self _ _)
    have hrest : ∀ o ∈ rest, opSetsKey key o = false :=
      fun o ho => hops o (List.mem_cons_of_mem _ ho)
    show (applyCacheOps (applyCacheOp db op) rest).cache.lookup key = none
    apply ih _ hrest
    match op with
    | CacheOp.setOp now k d =>
      exact lookup_setCache_preserve_none hop h
    | CacheOp.clearOp pattern =>
      exact lookup_clearCache_preserve_none h
    | CacheOp.setUserOp u => rfl

/-- A key absent from the cache misses. -/
theorem getFromCache_none_of_lookup_none {db : Database} {key : Str} {now : Nat}
    (h : db.cache.lookup key = none) : db.getFromCache now key = none := by
  unfold Database.getFromCache
  rw [h]

/-! ## Claim theorems: the cache -/

/-- Claim C4: a cache entry is never returned by `getFromCache` once its age
(now minus insertion time) meets or exceeds the configured TTL (30000 ms), nor
after an invalidation whose pattern is contained in its key (`clearCache`)
has occurred since its insertion — whatever later cache operations happen, as
long as none re-populates that key.  An expired entry is a miss even while
still physically present in the cache map. -/
theorem cache_ttl_and_invalidation_miss
    (db : Database) (key : Str) (now : Nat) (pat : Option Str) (ops : List CacheOp)
    (hTTL : db.cacheTimeout = 30000) :
    (∀ e, db.cache.lookup key = some e → 30000 ≤ now - e.timestamp →
      db.getFromCache now key = none) ∧
    ((pat = none ∨ ∃ p, pat = some p ∧ jsIncludes key p = true) →
     (∀ op ∈ ops, opSetsKey key op = false) →
     (applyCacheOps (db.clearCache pat) ops).getFromCache now key = none) := by
  constructor
  · intro e he hage
    unfold Database.getFromCache
    simp only [he]
    rw [hTTL, if_neg]
    omega
  · intro hpat hops
    exact getFromCache_none_of_lookup_none
      (lookup_none_applyCacheOps (lookup_clearCache_none hpat) hops)

/-- Witness for C4: a concrete entry inserted at time 0 misses at age exactly
30000, and misses after `clearCache('jobs')` followed by an unrelated set. -/
theorem cache_ttl_and_invalidation_miss_witness :
    ({ userId := str "a", cache := [(str "a:jobs:all", ⟨JsVal.arr [], 0⟩)],
       cacheTimeout := 30000 } : Database).getFromCache 30000 (str "a:jobs:all") = none ∧
    (applyCacheOps
      (({ userId := str "a", cache := [(str "a:jobs:all", ⟨JsVal.arr [], 0⟩)],
          cacheTimeout := 30000 } : Database).clearCache (some (str "jobs")))
      [CacheOp.setOp 5 (str "a:clients:all") JsVal.null]).getFromCache 6
      (str "a:jobs:all") = none := by
  constructor
  · exact (cache_ttl_and_invalidation_miss _ (str "a:jobs:all") 30000 none [] rfl).1
      ⟨JsVal.arr [], 0⟩ rfl (by decide)
  · exact (cache_ttl_and_invalidation_miss _ (str "a:jobs:all") 6 (some (str "jobs"))
      [CacheOp.setOp 5 (str "a:clients:all") JsVal.null] rfl).2
      (Or.inr ⟨str "jobs", rfl, by decide⟩)
      (by
        intro op hop
        rw [List.mem_singleton] at hop
        subst hop
        decide)

/-- Claim C5: after any successful create, update, soft-delete, hard-delete,
or restore on a table `T`, every cache key containing the substring `T` — and
every key containing `dashboard`, in particular the dashboard aggregate key —
has been evicted, so the next lookup for any such key is a miss. -/
theorem mutation_invalidation_complete
    (k : MutKind) (db : Database) (table key : Str) (now : Nat)
    (h : jsIncludes key table = true ∨ jsIncludes key (str "dashboard") = true) :
    (mutationCacheEffect k db table).getFromCache now key = none := by
  apply getFromCache_none_of_lookup_none
  have base : ∀ db' : Database,
      ((db'.clearCache (some table)).clearCache (some (str "dashboard"))).cache.lookup key
        = none := by
    intro db'
    rcases h with h | h
    · exact lookup_clearCache_preserve_none (lookup_clearCache_none (Or.inr ⟨table, rfl, h⟩))
    · exact lookup_clearCache_none (Or.inr ⟨str "dashboard", rfl, h⟩)
  match k with
  | MutKind.create => exact base db
  | MutKind.update => exact base db
  | MutKind.softDelete => exact lookup_clearCache_preserve_none (base db)
  | MutKind.hardDelete => exact lookup_clearCache_preserve_none (base db)
  | MutKind.restore => exact lookup_clearCache_preserve_none (base db)

/-- Witness for C5: a concrete cache holding a `jobs` list key and the
dashboard aggregate key misses on both after a successful create on `jobs`. -/
theorem mutation_invalidation_complete_witness :
    (mutationCacheEffect MutKind.create
      ({ userId := str "alice",
         cache := [(str "alice:jobs:all", ⟨JsVal.arr [], 3⟩),
                   (str "alice:dashboard", ⟨JsVal.obj [], 3⟩)],
         cacheTimeout := 30000 } : Database) (str "jobs")).getFromCache 4
      (str "alice:jobs:all") = none ∧
    (mutationCacheEffect MutKind.softDelete
      ({ userId := str "alice",
         cache := [(str "alice:jobs:all", ⟨JsVal.arr [], 3⟩),
                   (str "alice:dashboard", ⟨JsVal.obj [], 3⟩)],
         cacheTimeout := 30000 } : Database) (str "jobs")).getFromCache 4
      (str "alice:dashboard") = none := by
  constructor
  · exact mutation_invalidation_complete MutKind.create _ (str "jobs")
      (str "alice:jobs:all") 4 (Or.inl (by decide))
  · exact mutation_invalidation_complete MutKind.softDelete _ (str "jobs")
      (str "alice:dashboard") 4 (Or.inr (by decide))

/-! ## Rewriter-level helper lemmas for the endpoint claims -/

theorem proxySafeEndpoint_replace {id : Str} {method : Option JsVal} {endpoint : Str}
    (hin : jsIncludes endpoint (str "user_id=") = true) :
    proxySafeEndpoint id method endpoint = replUid id endpoint := by
  unfold proxySafeEndpoint
  simp only [hin, if_true]

theorem batchSafeEndpoint_replace {id endpoint : Str}
    (hin : jsIncludes endpoint (str "user_id=") = true) :
    batchSafeEndpoint id endpoint = replUid id endpoint := by
  unfold batchSafeEndpoint
  simp only [hin, if_true]

theorem append_filter_split (endpoint tail : Str) :
    endpoint ++ (if jsIncludes endpoint (str "?") then str "&" else str "?") ++ tail
      = endpoint ++ (if jsIncludes endpoint (str "?") then '&' else '?') :: tail := by
  by_cases hq : jsIncludes endpoint (str "?") = true
  · simp only [hq, if_true]
    rw [List.append_assoc]
    rfl
  · rw [Bool.not_eq_true] at hq
    simp only [hq, Bool.false_eq_true, if_false]
    rw [List.append_assoc]
    rfl

theorem proxySafeEndpoint_append {id : Str} {method : Option JsVal} {endpoint : Str}
    (hni : jsIncludes endpoint (str "user_id=") = false)
    (hpost : jsEqStr method (str "POST") = false)
    (hpatch : jsEqStr method (str "PATCH") = false)
    (hid : id ≠ []) (hamp : ∀ c ∈ id, (c != '&') = true) :
    uidValues (proxySafeEndpoint id method endpoint) = [id] := by
  unfold proxySafeEndpoint
  simp only [hni, Bool.false_eq_true, if_false, hpost, hpatch, Bool.not_false,
    Bool.and_self, if_true]
  rw [List.append_assoc, append_filter_split]
  by_cases hq : jsIncludes endpoint (str "?") = true
  · simp only [hq, if_true]
    exact uidValues_append_filter (Or.inr rfl) hni hid hamp
  · rw [Bool.not_eq_true] at hq
    simp only [hq, Bool.false_eq_true, if_false]
    exact uidValues_append_filter (Or.inl rfl) hni hid hamp

theorem batchSafeEndpoint_append {id endpoint : Str}
    (hni : jsIncludes endpoint (str "user_id=") = false)
    (hid : id ≠ []) (hamp : ∀ c ∈ id, (c != '&') = true) :
    uidValues (batchSafeEndpoint id endpoint) = [id] := by
  unfold batchSafeEndpoint
  simp only [hni, Bool.false_eq_true, if_false]
  rw [List.append_assoc, append_filter_split]
  by_cases hq : jsIncludes endpoint (str "?") = true
  · simp only [hq, if_true]
    exact uidValues_append_filter (Or.inr rfl) hni hid hamp
  · rw [Bool.not_eq_true] at hq
    simp only [hq, Bool.false_eq_true, if_false]
    exact uidValues_append_filter (Or.inl rfl) hni hid hamp

theorem proxySafeEndpoint_postpatch {id : Str} {method : Option JsVal} {endpoint : Str}
    (hni : jsIncludes endpoint (str "user_id=") = false)
    (hm : jsEqStr method (str "POST") = true ∨ jsEqStr method (str "PATCH") = true) :
    proxySafeEndpoint id method endpoint = endpoint := by
  unfold proxySafeEndpoint
  simp only [hni, Bool.false_eq_true, if_false]
  rcases hm with hm | hm <;> simp [hm]

/-! ## Claim theorems: the query rewriter -/

/-- Claim C1 (amended): the principal id `id` has the shape of a JWT subject
(non-empty, `&`-free).  (1) If the raw endpoint contains the substring
`user_id=`, every `user_id=eq.<value>` fragment — however many — is rebound to
`id` by both the proxy and the batch rewriter, but nothing is appended, so an
endpoint whose only tenant filter is a non-`eq` operator (e.g. `user_id=in.(…)`)
is forwarded with *no* `user_id=eq.<id>` fragment.  (2) If the raw endpoint
does not contain `user_id=`, a single `user_id=eq.<id>` fragment is appended —
always for batch sub-requests, but for the proxy only when the method is
neither `POST` nor `PATCH`; a POST/PATCH proxy endpoint without `user_id=` is
forwarded without any tenant filter (the body stamp is relied upon instead). -/
theorem proxy_tenant_filter_characterization
    (id : Str) (method : Option JsVal) (endpoint : Str)
    (hid : id ≠ []) (hamp : ∀ c ∈ id, (c != '&') = true) :
    (jsIncludes endpoint (str "user_id=") = true →
      uidValues (proxySafeEndpoint id method endpoint)
          = (uidValues endpoint).map (fun _ => id) ∧
      uidValues (batchSafeEndpoint id endpoint)
          = (uidValues endpoint).map (fun _ => id)) ∧
    (jsIncludes endpoint (str "user_id=") = false →
      uidValues (batchSafeEndpoint id endpoint) = [id] ∧
      (jsEqStr method (str "POST") = false → jsEqStr method (str "PATCH") = false →
        uidValues (proxySafeEndpoint id method endpoint) = [id]) ∧
      ((jsEqStr method (str "POST") = true ∨ jsEqStr method (str "PATCH") = true) →
        proxySafeEndpoint id method endpoint = endpoint)) := by
  constructor
  · intro hin
    rw [proxySafeEndpoint_replace hin, batchSafeEndpoint_replace hin]
    exact ⟨uidValues_replUid hid hamp endpoint, uidValues_replUid hid hamp endpoint⟩
  · intro hni
    refine ⟨batchSafeEndpoint_append hni hid hamp, ?_, ?_⟩
    · intro hpost hpatch
      exact proxySafeEndpoint_append hni hpost hpatch hid hamp
    · intro hm
      exact proxySafeEndpoint_postpatch hni hm

/-- Witness for C1 (amended): concrete instances of the three behaviours. -/
theorem proxy_tenant_filter_characterization_witness :
    uidValues (proxySafeEndpoint (str "alice") (some (JsVal.jstr (str "GET")))
      (str "clients?user_id=eq.bob&select=*")) = [str "alice"] ∧
    uidValues (proxySafeEndpoint (str "alice") (some (JsVal.jstr (str "GET")))
      (str "clients?select=*")) = [str "alice"] ∧
    proxySafeEndpoint (str "alice") (some (JsVal.jstr (str "POST"))) (str "jobs")
      = str "jobs" := by
  refine ⟨?_, ?_, ?_⟩
  · have h := (proxy_tenant_filter_characterization (str "alice")
      (some (JsVal.jstr (str "GET"))) (str "clients?user_id=eq.bob&select=*")
      (by decide) (by decide)).1 (by decide)
    rw [h.1]
    decide
  · exact ((proxy_tenant_filter_characterization (str "alice")
      (some (JsVal.jstr (str "GET"))) (str "clients?select=*")
      (by decide) (by decide)).2 (by decide)).2.1 (by decide) (by decide)
  · exact ((proxy_tenant_filter_characterization (str "alice")
      (some (JsVal.jstr (str "POST"))) (str "jobs")
      (by decide) (by decide)).2 (by decide)).2.2 (Or.inl (by decide))

/-- Counterexample to claim C1 as stated: a GET endpoint whose tenant filter
uses the non-`eq` operator `user_id=in.(…)` is forwarded verbatim and carries
no `user_id=eq.<principal>` fragment at all, and a POST endpoint without
`user_id=` receives no tenant filter either. -/
theorem proxy_tenant_filter_bypass_cex :
    proxySafeEndpoint (str "alice") (some (JsVal.jstr (str "GET")))
      (str "jobs?user_id=in.(bob)") = str "jobs?user_id=in.(bob)" ∧
    uidValues (proxySafeEndpoint (str "alice") (some (JsVal.jstr (str "GET")))
      (str "jobs?user_id=in.(bob)")) = [] ∧
    jsIncludes (proxySafeEndpoint (str "alice") (some (JsVal.jstr (str "GET")))
      (str "jobs?user_id=in.(bob)")) litUid = false ∧
    proxySafeEndpoint (str "alice") (some (JsVal.jstr (str "POST"))) (str "jobs")
      = str "jobs" := by
  decide

/-- Claim C2 (amended): when the raw endpoint contains `user_id=`, the rewriter
replaces each `user_id=eq.<value>` fragment *in place*: the rewritten endpoint
carries exactly as many tenant-filter fragments as the raw endpoint — not
exactly one — and every one of them is bound to the principal id; exactly one
fragment is guaranteed only in the appending case (no `user_id=` substring and,
for the proxy, a method that is neither POST nor PATCH). -/
theorem rewrite_fragment_count
    (id : Str) (method : Option JsVal) (endpoint : Str)
    (hid : id ≠ []) (hamp : ∀ c ∈ id, (c != '&') = true) :
    (jsIncludes endpoint (str "user_id=") = true →
      (uidValues (proxySafeEndpoint id method endpoint)).length
          = (uidValues endpoint).length ∧
      ∀ v ∈ uidValues (proxySafeEndpoint id method endpoint), v = id) ∧
    (jsIncludes endpoint (str "user_id=") = false →
      jsEqStr method (str "POST") = false → jsEqStr method (str "PATCH") = false →
      (uidValues (proxySafeEndpoint id method endpoint)).length = 1) := by
  constructor
  · intro hin
    rw [proxySafeEndpoint_replace hin, uidValues_replUid hid hamp endpoint]
    constructor
    · exact List.length_map _ _
    · intro v hv
      obtain ⟨w, _, hw⟩ := List.mem_map.mp hv
      exact hw.symm
  · intro hni hpost hpatch
    rw [proxySafeEndpoint_append hni hpost hpatch hid hamp]
    rfl

/-- Witness for C2 (amended): a two-fragment endpoint keeps two fragments,
both bound to the principal; an endpoint without `user_id=` gets exactly one. -/
theorem rewrite_fragment_count_witness :
    (uidValues (proxySafeEndpoint (str "alice") (some (JsVal.jstr (str "GET")))
      (str "clients?user_id=eq.bob&user_id=eq.carol"))).length
        = (uidValues (str "clients?user_id=eq.bob&user_id=eq.carol")).length ∧
    (uidValues (proxySafeEndpoint (str "alice") (some (JsVal.jstr (str "DELETE")))
      (str "clients?select=*"))).length = 1 := by
  constructor
  · exact ((rewrite_fragment_count (str "alice") (some (JsVal.jstr (str "GET")))
      (str "clients?user_id=eq.bob&user_id=eq.carol") (by decide) (by decide)).1
      (by decide)).1
  · exact (rewrite_fragment_count (str "alice") (some (JsVal.jstr (str "DELETE")))
      (str "clients?select=*") (by decide) (by decide)).2 (by decide) (by decide) (by decide)

/-- Counterexample to claim C2 as stated: an endpoint with two tenant-filter
fragments is rewritten to an endpoint that still contains two fragments (both
bound to the principal), not exactly one. -/
theorem rewrite_two_fragments_cex :
    proxySafeEndpoint (str "alice") (some (JsVal.jstr (str "GET")))
      (str "clients?user_id=eq.bob&user_id=eq.carol")
      = str "clients?user_id=eq.alice&user_id=eq.alice" ∧
    (uidValues (proxySafeEndpoint (str "alice") (some (JsVal.jstr (str "GET")))
      (str "clients?user_id=eq.bob&user_id=eq.carol"))).length = 2 := by
  decide

/-! ## Claim theorems: mutation body stamping -/

theorem lookup_setField_same (fs : List (Str × JsVal)) (k : Str) (v : JsVal) :
    (setField fs k v).lookup k = some v := by
  induction fs with
  | nil =>
    unfold setField
    rw [List.lookup_cons]
    simp
  | cons kv rest ih =>
    unfold setField
    by_cases hk : kv.1 = k
    · simp only [hk, if_true]
      rw [List.lookup_cons]
      simp
    · simp only [hk, if_false]
      rw [List.lookup_cons]
      have : (k == kv.1) = false := by
        rw [beq_eq_false_iff_ne]
        exact fun he => hk he.symm
      simp only [this]
      exact ih

theorem lookup_setField_ne (fs : List (Str × JsVal)) {k k2 : Str} (v : JsVal)
    (hne : k2 ≠ k) : (setField fs k v).lookup k2 = fs.lookup k2 := by
  induction fs with
  | nil =>
    unfold setField
    rw [List.lookup_cons]
    have : (k2 == k) = false := by rw [beq_eq_false_iff_ne]; exact hne
    simp only [this]
  | cons kv rest ih =>
    unfold setField
    by_cases hk : kv.1 = k
    · simp only [hk, if_true]
      rw [List.lookup_cons, List.lookup_cons]
      have hne2 : (k2 == k) = false := by rw [beq_eq_false_iff_ne]; exact hne
      have hkv : (k2 == kv.1) = false := by rw [hk]; exact hne2
      simp only [hne2, hkv]
    · simp only [hk, if_false]
      rw [List.lookup_cons, List.lookup_cons]
      by_cases h2 : (k2 == kv.1) = true
      · simp only [h2]
      · rw [Bool.not_eq_true] at h2
        simp only [h2]
        exact ih

/-- Claim C3 (amended): for a POST/PATCH request with a truthy body, an
*object* body is delivered with its `user_id` field forced to the principal
(overwriting any client value, preserving every other field); an *array* body,
however, is converted by the object spread into an object with index keys plus
`user_id` — it does not remain an array and its elements are not stamped. -/
theorem mutation_body_stamping
    (method : Option JsVal) (body : JsVal) (uid : JsVal)
    (hm : jsEqStr method (str "POST") = true ∨ jsEqStr method (str "PATCH") = true)
    (ht : truthy body = true) :
    (∀ fs, body = JsVal.obj fs →
      proxySafeBody method (some body) uid
          = some (JsVal.obj (setField fs (str "user_id") uid)) ∧
      getField (JsVal.obj (setField fs (str "user_id") uid)) (str "user_id") = some uid ∧
      ∀ k, k ≠ str "user_id" →
        getField (JsVal.obj (setField fs (str "user_id") uid)) k = getField body k) ∧
    (∀ l, body = JsVal.arr l →
      proxySafeBody method (some body) uid
          = some (JsVal.obj (enumFields l ++ [(str "user_id", uid)])) ∧
      ∀ v, proxySafeBody method (some body) uid = some v → isArr v = false) := by
  have hcond : (truthy body &&
      (jsEqStr method (str "POST") || jsEqStr method (str "PATCH"))) = true := by
    rw [ht, Bool.true_and]
    rcases hm with hm | hm <;> simp [hm]
  constructor
  · intro fs hfs
    subst hfs
    refine ⟨?_, ?_, ?_⟩
    · unfold proxySafeBody
      simp only [hcond, if_true]
      rfl
    · exact lookup_setField_same fs (str "user_id") uid
    · intro k hk
      exact lookup_setField_ne fs uid hk
  · intro l hl
    subst hl
    have hval : proxySafeBody method (some (JsVal.arr l)) uid
        = some (JsVal.obj (enumFields l ++ [(str "user_id", uid)])) := by
      unfold proxySafeBody
      simp only [hcond, if_true]
      rfl
    refine ⟨hval, ?_⟩
    intro v hv
    rw [hval] at hv
    injection hv with hv
    rw [← hv]
    rfl

/-- Witness for C3 (amended): a POST object body gets `user_id` forced to the
principal; a POST array body becomes an index-keyed object. -/
theorem mutation_body_stamping_witness :
    proxySafeBody (some (JsVal.jstr (str "POST")))
      (some (JsVal.obj [(str "name", JsVal.jstr (str "x")),
                        (str "user_id", JsVal.jstr (str "mallory"))]))
      (JsVal.jstr (str "alice"))
      = some (JsVal.obj (setField
          [(str "name", JsVal.jstr (str "x")), (str "user_id", JsVal.jstr (str "mallory"))]
          (str "user_id") (JsVal.jstr (str "alice")))) ∧
    proxySafeBody (some (JsVal.jstr (str "POST")))
      (some (JsVal.arr [JsVal.obj [(str "name", JsVal.jstr (str "x"))]]))
      (JsVal.jstr (str "alice"))
      = some (JsVal.obj (enumFields [JsVal.obj [(str "name", JsVal.jstr (str "x"))]]
          ++ [(str "user_id", JsVal.jstr (str "alice"))])) := by
  constructor
  · exact ((mutation_body_stamping (some (JsVal.jstr (str "POST"))) _
      (JsVal.jstr (str "alice")) (Or.inl (by decide)) (by decide)).1 _ rfl).1
  · exact ((mutation_body_stamping (some (JsVal.jstr (str "POST"))) _
      (JsVal.jstr (str "alice")) (Or.inl (by decide)) (by decide)).2 _ rfl).1

/-- Counterexample to claim C3 as stated: a POST bulk-insert body `[{name:'x'}]`
does not remain an array with stamped elements — the spread turns it into the
object `{'0': {name:'x'}, user_id: 'alice'}`, an object whose single element is
left unstamped. -/
theorem array_body_spread_cex :
    proxySafeBody (some (JsVal.jstr (str "POST")))
      (some (JsVal.arr [JsVal.obj [(str "name", JsVal.jstr (str "x"))]]))
      (JsVal.jstr (str "alice"))
      = some (JsVal.obj [(str "0", JsVal.obj [(str "name", JsVal.jstr (str "x"))]),
                         (str "user_id", JsVal.jstr (str "alice"))]) ∧
    ∀ v, proxySafeBody (some (JsVal.jstr (str "POST")))
      (some (JsVal.arr [JsVal.obj [(str "name", JsVal.jstr (str "x"))]]))
      (JsVal.jstr (str "alice")) = some v → isArr v = false := by
  constructor
  · rfl
  · intro v hv
    injection hv with hv
    rw [← hv]
    rfl

/-! ## Lemmas about the batch response object -/

theorem lookupOpt_upsert_same (l : List (Str × Option JsVal)) (k : Str) (v : Option JsVal) :
    (upsertOpt l k v).lookup k = some v := by
  induction l with
  | nil =>
    unfold upsertOpt
    rw [List.lookup_cons]
    simp
  | cons kv rest ih =>
    unfold upsertOpt
    by_cases hk : kv.1 = k
    · simp only [hk, if_true]
      rw [List.lookup_cons]
      simp
    · simp only [hk, if_false]
      rw [List.lookup_cons]
      have : (k == kv.1) = false := by
        rw [beq_eq_false_iff_ne]
        exact fun he => hk he.symm
      simp only [this]
      exact ih

theorem lookupOpt_upsert_ne (l : List (Str × Option JsVal)) {k k2 : Str} (v : Option JsVal)
    (hne : k2 ≠ k) : (upsertOpt l k v).lookup k2 = l.lookup k2 := by
  induction l with
  | nil =>
    unfold upsertOpt
    rw [List.lookup_cons]
    have : (k2 == k) = false := by rw [beq_eq_false_iff_ne]; exact hne
    simp only [this]
  | cons kv rest ih =>
    unfold upsertOpt
    by_cases hk : kv.1 = k
    · simp only [hk, if_true]
      rw [List.lookup_cons, List.lookup_cons]
      have hne2 : (k2 == k) = false := by rw [beq_eq_false_iff_ne]; exact hne
      have hkv : (k2 == kv.1) = false := by rw [hk]; exact hne2
      simp only [hne2, hkv]
    · simp only [hk, if_false]
      rw [List.lookup_cons, List.lookup_cons]
      by_cases h2 : (k2 == kv.1) = true
      · simp only [h2]
      · rw [Bool.not_eq_true] at h2
        simp only [h2]
        exact ih

theorem lookupOpt_none_of_not_mem_keys {l : List (Str × Option JsVal)} {k : Str}
    (h : k ∉ l.map Prod.fst) : l.lookup k = none := by
  induction l with
  | nil => rfl
  | cons kv rest ih =>
    rw [List.map_cons, List.mem_cons] at h
    push_neg at h
    rw [List.lookup_cons]
    have : (k == kv.1) = false := by rw [beq_eq_false_iff_ne]; exact h.1
    simp only [this]
    exact ih h.2

theorem upsertOpt_keys_mem {l : List (Str × Option JsVal)} {k : Str} {v : Option JsVal}
    {x : Str} (h : x ∈ (upsertOpt l k v).map Prod.fst) :
    x ∈ l.map Prod.fst ∨ x = k := by
  induction l with
  | nil =>
    unfold upsertOpt at h
    rw [List.map_cons, List.mem_cons] at h
    rcases h with h | h
    · exact Or.inr h
    · simp at h
  | cons kv rest ih =>
    unfold upsertOpt at h
    by_cases hk : kv.1 = k
    · simp only [hk, if_true] at h
      rw [List.map_cons, List.mem_cons] at h
      rcases h with h | h
      · exact Or.inr (hk ▸ h)
      · exact Or.inl (List.mem_cons_of_mem _ h)
    · simp only [hk, if_false] at h
      rw [List.map_cons, List.mem_cons] at h
      rcases h with h | h
      · exact Or.inl (h ▸ List.mem_cons_self _ _)
      · rcases ih h with h | h
        · exact Or.inl (List.mem_cons_of_mem _ h)
        · exact Or.inr h

theorem upsertOpt_keys_nodup {l : List (Str × Option JsVal)} {k : Str} {v : Option JsVal}
    (h : (l.map Prod.fst).Nodup) : ((upsertOpt l k v).map Prod.fst).Nodup := by
  induction l with
  | nil =>
    unfold upsertOpt
    simp
  | cons kv rest ih =>
    rw [List.map_cons, List.nodup_cons] at h
    unfold upsertOpt
    by_cases hk : kv.1 = k
    · simp only [hk, if_true]
      rw [List.map_cons, List.nodup_cons]
      exact ⟨hk ▸ h.1, h.2⟩
    · simp only [hk, if_false]
      rw [List.map_cons, List.nodup_cons]
      constructor
      · intro hmem
        rcases upsertOpt_keys_mem hmem with hmem | hmem
        · exact h.1 hmem
        · exact hk hmem
      · exact ih h.2

theorem serialize_lookup_none {l : List (Str × Option JsVal)} {k : Str}
    (h : l.lookup k = none) : (serializeResp l).lookup k = none := by
  induction l with
  | nil => rfl
  | cons kv rest ih =>
    obtain ⟨k1, v1⟩ := kv
    rw [List.lookup_cons] at h
    by_cases hk : (k == k1) = true
    · simp only [hk] at h
      simp at h
    · rw [Bool.not_eq_true] at hk
      simp only [hk] at h
      match v1 with
      | none => exact ih h
      | some d =>
        show ((k1, d) :: serializeResp rest).lookup k = none
        rw [List.lookup_cons]
        simp only [hk]
        exact ih h

theorem serialize_lookup_some {l : List (Str × Option JsVal)} {k : Str} {v : Option JsVal}
    (hnd : (l.map Prod.fst).Nodup) (h : l.lookup k = some v) :
    (serializeResp l).lookup k = v := by
  induction l with
  | nil => exact absurd h (by simp)
  | cons kv rest ih =>
    obtain ⟨k1, v1⟩ := kv
    rw [List.map_cons, List.nodup_cons] at hnd
    rw [List.lookup_cons] at h
    by_cases hk : (k == k1) = true
    · simp only [hk] at h
      injection h with h
      subst h
      have hkeq : k = k1 := by rw [← beq_iff_eq]; exact hk
      match v1 with
      | none =>
        have hrest : rest.lookup k = none := by
          apply lookupOpt_none_of_not_mem_keys
          rw [hkeq]
          exact hnd.1
        show (serializeResp rest).lookup k = none
        exact serialize_lookup_none hrest
      | some d =>
        show ((k1, d) :: serializeResp rest).lookup k = some d
        rw [List.lookup_cons]
        simp only [hk]
    · rw [Bool.not_eq_true] at hk
      simp only [hk] at h
      match v1 with
      | none => exact ih hnd.2 h
      | some d =>
        show ((k1, d) :: serializeResp rest).lookup k = v
        rw [List.lookup_cons]
        simp only [hk]
        exact ih hnd.2 h

theorem buildBatchGo_total : ∀ (results : List SubResult) (acc : List (Str × Option JsVal)),
    (∀ r ∈ results, subStatus r = 200 → ∃ v, subValue r = Except.ok v) →
    ∃ acc', buildBatchGo results acc = some acc' := by
  intro results
  induction results with
  | nil => exact fun acc _ => ⟨acc, rfl⟩
  | cons r rest ih =>
    intro acc hok
    unfold buildBatchGo
    by_cases hs : subStatus r = 200
    · obtain ⟨v, hv⟩ := hok r (List.mem_cons_self _ _) hs
      rw [if_pos hs, hv]
      exact ih _ (fun r' hr' => hok r' (List.mem_cons_of_mem _ hr'))
    · rw [if_neg hs]
      exact ih _ (fun r' hr' => hok r' (List.mem_cons_of_mem _ hr'))

theorem buildBatchGo_keys_nodup : ∀ (results : List SubResult)
    (acc acc' : List (Str × Option JsVal)),
    buildBatchGo results acc = some acc' →
    (acc.map Prod.fst).Nodup → (acc'.map Prod.fst).Nodup := by
  intro results
  induction results with
  | nil =>
    intro acc acc' h hnd
    injection h with h
    exact h ▸ hnd
  | cons r rest ih =>
    intro acc acc' h hnd
    unfold buildBatchGo at h
    by_cases hs : subStatus r = 200
    · rw [if_pos hs] at h
      match hv : subValue r with
      | Except.error e =>
        rw [hv] at h
        exact absurd h (by simp)
      | Except.ok v =>
        rw [hv] at h
        exact ih _ _ h (upsertOpt_keys_nodup hnd)
    · rw [if_neg hs] at h
      exact ih _ _ h hnd

theorem buildBatchGo_untouched : ∀ (results : List SubResult)
    (acc acc' : List (Str × Option JsVal)) (k : Str),
    buildBatchGo results acc = some acc' →
    (∀ r ∈ results, jsToStringOpt r.key ≠ k) →
    acc'.lookup k = acc.lookup k := by
  intro results
  induction results with
  | nil =>
    intro acc acc' k h _
    injection h with h
    rw [h]
  | cons r rest ih =>
    intro acc acc' k h hk
    unfold buildBatchGo at h
    by_cases hs : subStatus r = 200
    · rw [if_pos hs] at h
      match hv : subValue r with
      | Except.error e =>
        rw [hv] at h
        exact absurd h (by simp)
      | Except.ok v =>
        rw [hv] at h
        rw [ih _ _ k h (fun r' hr' => hk r' (List.mem_cons_of_mem _ hr'))]
        exact lookupOpt_upsert_ne _ _ (fun he => hk r (List.mem_cons_self _ _) he.symm)
    · rw [if_neg hs] at h
      exact ih _ _ k h (fun r' hr' => hk r' (List.mem_cons_of_mem _ hr'))

theorem buildBatchGo_mem : ∀ (results : List SubResult)
    (acc acc' : List (Str × Option JsVal)) (r : SubResult),
    buildBatchGo results acc = some acc' →
    (results.map (fun r => jsToStringOpt r.key)).Nodup →
    r ∈ results →
    (subStatus r ≠ 200 →
      acc'.lookup (jsToStringOpt r.key) = acc.lookup (jsToStringOpt r.key)) ∧
    (∀ v, subValue r = Except.ok v → subStatus r = 200 →
      acc'.lookup (jsToStringOpt r.key) = some v) := by
  intro results
  induction results with
  | nil =>
    intro acc acc' r _ _ hr
    exact absurd hr (List.not_mem_nil r)
  | cons r0 rest ih =>
    intro acc acc' r h hnd hr
    rw [List.map_cons, List.nodup_cons] at hnd
    have hrestk : ∀ r' ∈ rest, jsToStringOpt r'.key ≠ jsToStringOpt r0.key := by
      intro r' hr' he
      exact hnd.1 (he ▸ List.mem_map_of_mem _ hr')
    unfold buildBatchGo at h
    rcases List.mem_cons.mp hr with rfl | hr
    · constructor
      · intro hs
        rw [if_neg hs] at h
        exact buildBatchGo_untouched rest _ _ _ h hrestk
      · intro v hv hs
        rw [if_pos hs, hv] at h
        rw [buildBatchGo_untouched rest _ _ _ h hrestk]
        exact lookupOpt_upsert_same _ _ _
    · have hne : jsToStringOpt r.key ≠ jsToStringOpt r0.key := hrestk r hr
      by_cases hs0 : subStatus r0 = 200
      · rw [if_pos hs0] at h
        match hv0 : subValue r0 with
        | Except.error e =>
          rw [hv0] at h
          exact absurd h (by simp)
        | Except.ok v0 =>
          rw [hv0] at h
          have := ih _ _ r h hnd.2 hr
          refine ⟨?_, this.2⟩
          intro hs
          rw [this.1 hs]
          exact lookupOpt_upsert_ne _ _ hne
      · rw [if_neg hs0] at h
        exact ih _ _ r h hnd.2 hr

/-! ## Claim theorems: the batch endpoint -/

/-- Claim C6 (amended): for every batch whose settled sub-results have
pairwise-distinct keys (and no `business` result whose `data[0]` indexing
would throw), the overall response is HTTP 200 no matter how many
sub-requests failed; the key of every sub-request whose status is not
*exactly* 200 — transport errors are recorded as 500, and any non-200 backend
status, 2xx included, counts as failed here — is absent from the response
object, and every status-200 key carries its payload (`business` carrying the
first element of its result array). -/
theorem batch_partial_failure_response
    (results : List SubResult)
    (hnd : (results.map (fun r => jsToStringOpt r.key)).Nodup)
    (hok : ∀ r ∈ results, subStatus r = 200 → ∃ v, subValue r = Except.ok v) :
    ∃ acc, buildBatchResponse results = some acc ∧
      batchRespond results = Decision.respond 200 (JsVal.obj (serializeResp acc)) ∧
      ∀ r ∈ results,
        (subStatus r ≠ 200 →
          (serializeResp acc).lookup (jsToStringOpt r.key) = none) ∧
        (∀ v, subValue r = Except.ok v → subStatus r = 200 →
          (serializeResp acc).lookup (jsToStringOpt r.key) = v) := by
  obtain ⟨acc, hacc⟩ := buildBatchGo_total results [] hok
  refine ⟨acc, hacc, ?_, ?_⟩
  · unfold batchRespond buildBatchResponse
    rw [show buildBatchGo results [] = some acc from hacc]
  · intro r hr
    have hmem := buildBatchGo_mem results [] acc r hacc hnd hr
    have hndacc : (acc.map Prod.fst).Nodup :=
      buildBatchGo_keys_nodup results [] acc hacc (by simp)
    constructor
    · intro hs
      have : acc.lookup (jsToStringOpt r.key) = none := by
        rw [hmem.1 hs]
        rfl
      exact serialize_lookup_none this
    · intro v hv hs
      exact serialize_lookup_some hndacc (hmem.2 v hv hs)

/-- Witness for C6 (amended): a three-key batch where `jobs` hit a transport
error and `invoices` got a backend 500 still answers 200, with `clients`
carrying its payload and the two failed keys absent. -/
theorem batch_partial_failure_response_witness :
    batchRespond
      [⟨some (JsVal.jstr (str "clients")), FetchOut.ok 200 (JsVal.arr [JsVal.obj []])⟩,
       ⟨some (JsVal.jstr (str "jobs")), FetchOut.errOut⟩,
       ⟨some (JsVal.jstr (str "invoices")), FetchOut.ok 500 JsVal.null⟩]
      = Decision.respond 200 (JsVal.obj [(str "clients", JsVal.arr [JsVal.obj []])]) ∧
    getField (JsVal.obj [(str "clients", JsVal.arr [JsVal.obj []])]) (str "jobs") = none := by
  constructor
  · obtain ⟨acc, hacc, hresp, _⟩ := batch_partial_failure_response
      [⟨some (JsVal.jstr (str "clients")), FetchOut.ok 200 (JsVal.arr [JsVal.obj []])⟩,
       ⟨some (JsVal.jstr (str "jobs")), FetchOut.errOut⟩,
       ⟨some (JsVal.jstr (str "invoices")), FetchOut.ok 500 JsVal.null⟩]
      (by decide)
      (by
        intro r hr hs
        rcases List.mem_cons.mp hr with rfl | hr
        · exact ⟨some (JsVal.arr [JsVal.obj []]), rfl⟩
        rcases List.mem_cons.mp hr with rfl | hr
        · exact absurd hs (by decide)
        rcases List.mem_cons.mp hr with rfl | hr
        · exact absurd hs (by decide)
        · exact absurd hr (List.not_mem_nil r))
    have : acc = [(str "clients", some (JsVal.arr [JsVal.obj []]))] := by
      have h2 : buildBatchResponse
        [⟨some (JsVal.jstr (str "clients")), FetchOut.ok 200 (JsVal.arr [JsVal.obj []])⟩,
         ⟨some (JsVal.jstr (str "jobs")), FetchOut.errOut⟩,
         ⟨some (JsVal.jstr (str "invoices")), FetchOut.ok 500 JsVal.null⟩]
          = some [(str "clients", some (JsVal.arr [JsVal.obj []]))] := rfl
      rw [h2] at hacc
      injection hacc with hacc
      exact hacc.symm
    rw [this] at hresp
    exact hresp
  · rfl

/-- Counterexample to claim C6 as stated: a sub-request answered with backend
status 206 — a 2xx success under the claim's definition, with a payload — is
nonetheless dropped from the response object, because the code keeps only
`status === 200` results. -/
theorem batch_non200_success_dropped_cex :
    (206 / 100 = 2) ∧
    buildBatchResponse
      [⟨some (JsVal.jstr (str "jobs")), FetchOut.ok 206 (JsVal.arr [JsVal.obj []])⟩]
      = some [] ∧
    batchRespond
      [⟨some (JsVal.jstr (str "jobs")), FetchOut.ok 206 (JsVal.arr [JsVal.obj []])⟩]
      = Decision.respond 200 (JsVal.obj []) := by
  exact ⟨rfl, rfl, rfl⟩

/-! ## Claim theorems: authentication and configuration short-circuits -/

/-- Does a decoded token payload lack a usable subject claim (`!payload.sub`)? -/
def subMissingOrFalsy (payload : JsVal) : Bool :=
  match getField payload (str "sub") with
  | none => true
  | some sv => !(truthy sv)

theorem proxy_auth_401
    (ev : HandlerEvent) (parse dec : Str → Option JsVal) (penv : ProxyEnv)
    (hpost : ev.httpMethod = str "POST")
    (hbad :
      jsOrStr ev.authLower ev.authCap = none ∨
      ∃ h, jsOrStr ev.authLower ev.authCap = some h ∧
        ((str "Bearer ").isPrefixOf h = false ∨
         decodeSubClaim (jsReplaceFirst h (str "Bearer ") []) dec = Except.error () ∨
         ∃ p, decodeSubClaim (jsReplaceFirst h (str "Bearer ") []) dec = Except.ok p ∧
           subMissingOrFalsy p = true)) :
    ∃ b, dbProxyHandler ev parse dec penv = Decision.respond 401 b := by
  unfold dbProxyHandler
  rw [if_neg (fun hne => hne hpost)]
  rcases hbad with hnone | ⟨h, hsome, hcase⟩
  · rw [hnone]
    exact ⟨proxyNoTokenBody, rfl⟩
  · rw [hsome]
    by_cases hpre : (str "Bearer ").isPrefixOf h = true
    · simp only [hpre, Bool.not_true, Bool.false_eq_true, if_false]
      rcases hcase with hpre2 | hdec | ⟨p, hp, hsub⟩
      · rw [hpre] at hpre2
        exact absurd hpre2 (by simp)
      · rw [hdec]
        exact ⟨invalidTokenBody, rfl⟩
      · simp only [hp]
        unfold subMissingOrFalsy at hsub
        match hgf : getField p (str "sub") with
        | none =>
          simp only [hgf]
          exact ⟨noUserIdBody, rfl⟩
        | some sv =>
          simp only [hgf] at hsub
          have hsv : truthy sv = false := by simpa using hsub
          simp only [hgf, hsv, Bool.false_eq_true, if_false]
          exact ⟨noUserIdBody, rfl⟩
    · rw [Bool.not_eq_true] at hpre
      simp only [hpre, Bool.not_false, if_true]
      exact ⟨proxyNoTokenBody, rfl⟩

theorem batch_auth_401
    (ev : HandlerEvent) (parse dec : Str → Option JsVal) (benv : BatchEnv)
    (hpost : ev.httpMethod = str "POST")
    (hbad :
      jsOrStr ev.authLower ev.authCap = none ∨
      ∃ h, jsOrStr ev.authLower ev.authCap = some h ∧
        ((str "Bearer ").isPrefixOf h = false ∨
         decodeSubClaim (jsReplaceFirst h (str "Bearer ") []) dec = Except.error () ∨
         ∃ p, decodeSubClaim (jsReplaceFirst h (str "Bearer ") []) dec = Except.ok p ∧
           subMissingOrFalsy p = true)) :
    ∃ b, dbBatchHandler ev parse dec benv = Decision.respond 401 b := by
  unfold dbBatchHandler
  rw [if_neg (fun hne => hne hpost)]
  rcases hbad with hnone | ⟨h, hsome, hcase⟩
  · rw [hnone]
    exact ⟨batchNoTokenBody, rfl⟩
  · rw [hsome]
    by_cases hpre : (str "Bearer ").isPrefixOf h = true
    · simp only [hpre, Bool.not_true, Bool.false_eq_true, if_false]
      rcases hcase with hpre2 | hdec | ⟨p, hp, hsub⟩
      · rw [hpre] at hpre2
        exact absurd hpre2 (by simp)
      · rw [hdec]
        exact ⟨invalidTokenBody, rfl⟩
      · simp only [hp]
        unfold subMissingOrFalsy at hsub
        match hgf : getField p (str "sub") with
        | none =>
          simp only [hgf]
          exact ⟨noUserIdBody, rfl⟩
        | some sv =>
          simp only [hgf] at hsub
          have hsv : truthy sv = false := by simpa using hsub
          simp only [hgf, hsv, Bool.false_eq_true, if_false]
          exact ⟨noUserIdBody, rfl⟩
    · rw [Bool.not_eq_true] at hpre
      simp only [hpre, Bool.not_false, if_true]
      exact ⟨batchNoTokenBody, rfl⟩

/-- Claim C7: for every POST request to either function whose Authorization
header is absent or not of the `Bearer <token>` form, or whose token payload
segment cannot be decoded, or whose decoded payload lacks a (truthy) subject
claim, the handler answers HTTP 401 and no call to the backing store is
attempted — authentication short-circuits before any backend contact. -/
theorem auth_short_circuit_401
    (ev : HandlerEvent) (parse dec : Str → Option JsVal)
    (penv : ProxyEnv) (benv : BatchEnv)
    (hpost : ev.httpMethod = str "POST")
    (hbad :
      jsOrStr ev.authLower ev.authCap = none ∨
      ∃ h, jsOrStr ev.authLower ev.authCap = some h ∧
        ((str "Bearer ").isPrefixOf h = false ∨
         decodeSubClaim (jsReplaceFirst h (str "Bearer ") []) dec = Except.error () ∨
         ∃ p, decodeSubClaim (jsReplaceFirst h (str "Bearer ") []) dec = Except.ok p ∧
           subMissingOrFalsy p = true)) :
    (∃ b, dbProxyHandler ev parse dec penv = Decision.respond 401 b ∧
      decisionContactsBackend (dbProxyHandler ev parse dec penv) = false) ∧
    (∃ b, dbBatchHandler ev parse dec benv = Decision.respond 401 b ∧
      decisionContactsBackend (dbBatchHandler ev parse dec benv) = false) := by
  obtain ⟨b1, hb1⟩ := proxy_auth_401 ev parse dec penv hpost hbad
  obtain ⟨b2, hb2⟩ := batch_auth_401 ev parse dec benv hpost hbad
  exact ⟨⟨b1, hb1, by rw [hb1]; rfl⟩, ⟨b2, hb2, by rw [hb2]; rfl⟩⟩

/-- Witness for C7: a POST with no Authorization header at all. -/
theorem auth_short_circuit_401_witness :
    (∃ b, dbProxyHandler
      ⟨str "POST", none, none, some (str "x")⟩ (fun _ => none) (fun _ => none)
      ⟨none, none, none, none, none, none, none, none, none, none⟩
        = Decision.respond 401 b ∧
      decisionContactsBackend (dbProxyHandler
        ⟨str "POST", none, none, some (str "x")⟩ (fun _ => none) (fun _ => none)
        ⟨none, none, none, none, none, none, none, none, none, none⟩) = false) ∧
    (∃ b, dbBatchHandler
      ⟨str "POST", none, none, some (str "x")⟩ (fun _ => none) (fun _ => none)
      ⟨none, none⟩ = Decision.respond 401 b ∧
      decisionContactsBackend (dbBatchHandler
        ⟨str "POST", none, none, some (str "x")⟩ (fun _ => none) (fun _ => none)
        ⟨none, none⟩) = false) :=
  auth_short_circuit_401
    ⟨str "POST", none, none, some (str "x")⟩ (fun _ => none) (fun _ => none)
    ⟨none, none, none, none, none, none, none, none, none, none⟩ ⟨none, none⟩
    rfl (Or.inl rfl)

/-- Claim C8: for every authenticated POST request (and, for the proxy, a
request body that parses to an envelope whose `endpoint` is a string), if the
backing-store base URL or service credential is still missing after the whole
configuration fallback chain, the handler answers HTTP 502 with the fixed
`server_configuration_missing` body — a closed literal that cannot echo any
configured value — and no backend call is attempted. -/
theorem config_missing_502
    (ev : HandlerEvent) (parse dec : Str → Option JsVal)
    (penv : ProxyEnv) (benv : BatchEnv)
    (hpost : ev.httpMethod = str "POST")
    (h : Str) (hsome : jsOrStr ev.authLower ev.authCap = some h)
    (hpre : (str "Bearer ").isPrefixOf h = true)
    (payload : JsVal)
    (hdec : decodeSubClaim (jsReplaceFirst h (str "Bearer ") []) dec = Except.ok payload)
    (sv : JsVal) (hsub : getField payload (str "sub") = some sv)
    (htr : truthy sv = true)
    (fs : List (Str × JsVal))
    (hparse : parse (rawOrEmptyObj ev.rawBody) = some (JsVal.obj fs))
    (endpoint : Str)
    (hep : fs.lookup (str "endpoint") = some (JsVal.jstr endpoint))
    (hcfgp : strTruthy (resolveProxyConfig penv).1 = false ∨
             strTruthy (resolveProxyConfig penv).2 = false)
    (hcfgb : strTruthy benv.supabaseUrl = false ∨
             strTruthy benv.supabaseKey = false) :
    dbProxyHandler ev parse dec penv = Decision.respond 502 configMissingBody ∧
    decisionContactsBackend (dbProxyHandler ev parse dec penv) = false ∧
    dbBatchHandler ev parse dec benv = Decision.respond 502 batchConfigMissingBody ∧
    decisionContactsBackend (dbBatchHandler ev parse dec benv) = false := by
  have hproxy : dbProxyHandler ev parse dec penv = Decision.respond 502 configMissingBody := by
    unfold dbProxyHandler
    rw [if_neg (fun hne => hne hpost)]
    rw [hsome]
    simp only [hpre, Bool.not_true, Bool.false_eq_true, if_false]
    simp only [hdec, hsub, htr, if_true, hparse]
    have hgf : getField (JsVal.obj fs) (str "endpoint") = some (JsVal.jstr endpoint) := hep
    simp only [hgf]
    rcases hcfgp with hc | hc <;>
      simp only [hc, Bool.not_false, Bool.true_or, Bool.or_true, if_true]
  have hbatch : dbBatchHandler ev parse dec benv
      = Decision.respond 502 batchConfigMissingBody := by
    unfold dbBatchHandler
    rw [if_neg (fun hne => hne hpost)]
    rw [hsome]
    simp only [hpre, Bool.not_true, Bool.false_eq_true, if_false]
    simp only [hdec, hsub, htr, if_true]
    rcases hcfgb with hc | hc <;>
      simp only [hc, Bool.not_false, Bool.true_or, Bool.or_true, if_true]
  exact ⟨hproxy, by rw [hproxy]; rfl, hbatch, by rw [hbatch]; rfl⟩

/-- Witness for C8: a concrete authenticated request against an environment
with no configuration at all. -/
theorem config_missing_502_witness :
    dbProxyHandler ⟨str "POST", some (str "Bearer t.p"), none, some (str "x")⟩
      (fun _ => some (JsVal.obj [(str "endpoint", JsVal.jstr (str "clients?select=*"))]))
      (fun _ => some (JsVal.obj [(str "sub", JsVal.jstr (str "alice"))]))
      ⟨none, none, none, none, none, none, none, none, none, none⟩
      = Decision.respond 502 configMissingBody ∧
    dbBatchHandler ⟨str "POST", some (str "Bearer t.p"), none, some (str "x")⟩
      (fun _ => some (JsVal.obj [(str "endpoint", JsVal.jstr (str "clients?select=*"))]))
      (fun _ => some (JsVal.obj [(str "sub", JsVal.jstr (str "alice"))]))
      ⟨none, none⟩ = Decision.respond 502 batchConfigMissingBody := by
  have h := config_missing_502
    ⟨str "POST", some (str "Bearer t.p"), none, some (str "x")⟩
    (fun _ => some (JsVal.obj [(str "endpoint", JsVal.jstr (str "clients?select=*"))]))
    (fun _ => some (JsVal.obj [(str "sub", JsVal.jstr (str "alice"))]))
    ⟨none, none, none, none, none, none, none, none, none, none⟩ ⟨none, none⟩
    rfl (str "Bearer t.p") rfl (by decide)
    (JsVal.obj [(str "sub", JsVal.jstr (str "alice"))]) rfl
    (JsVal.jstr (str "alice")) rfl (by decide)
    [(str "endpoint", JsVal.jstr (str "clients?select=*"))] rfl
    (str "clients?select=*") rfl
    (Or.inl rfl) (Or.inl rfl)
  exact ⟨h.1, h.2.2.1⟩

/-- Claim C9 (amended): the batch endpoint accepts only a JSON *object* with a
`requests` field holding an array of sub-request objects; for such a body
(with valid authentication and configuration) the batch proceeds to its
backend calls.  Any other body shape — in particular a bare array of
`{key, endpoint}` pairs or an object mapping key → endpoint, the two shapes
the claim describes — is rejected with HTTP 400 `requests must be an array`. -/
theorem batch_body_shape :
    (∀ (ev : HandlerEvent) (parse dec : Str → Option JsVal) (benv : BatchEnv),
      ev.httpMethod = str "POST" →
      ∀ h, jsOrStr ev.authLower ev.authCap = some h →
      (str "Bearer ").isPrefixOf h = true →
      ∀ payload, decodeSubClaim (jsReplaceFirst h (str "Bearer ") []) dec
        = Except.ok payload →
      ∀ sv, getField payload (str "sub") = some sv → truthy sv = true →
      strTruthy benv.supabaseUrl = true → strTruthy benv.supabaseKey = true →
      ∀ fs, parse (rawOrEmptyObj ev.rawBody) = some (JsVal.obj fs) →
      ∀ reqs, fs.lookup (str "requests") = some (JsVal.arr reqs) →
      ∀ calls, batchPrepare (jsToString sv) (benv.supabaseUrl.getD []) reqs = some calls →
      dbBatchHandler ev parse dec benv = Decision.fetchBatch calls) ∧
    (∀ (ev : HandlerEvent) (parse dec : Str → Option JsVal) (benv : BatchEnv),
      ev.httpMethod = str "POST" →
      ∀ h, jsOrStr ev.authLower ev.authCap = some h →
      (str "Bearer ").isPrefixOf h = true →
      ∀ payload, decodeSubClaim (jsReplaceFirst h (str "Bearer ") []) dec
        = Except.ok payload →
      ∀ sv, getField payload (str "sub") = some sv → truthy sv = true →
      strTruthy benv.supabaseUrl = true → strTruthy benv.supabaseKey = true →
      ∀ v, parse (rawOrEmptyObj ev.rawBody) = some v →
      v ≠ JsVal.null →
      (∀ l, getField v (str "requests") ≠ some (JsVal.arr l)) →
      dbBatchHandler ev parse dec benv
        = Decision.respond 400
            (JsVal.obj [(str "error", JsVal.jstr (str "requests must be an array"))])) := by
  constructor
  · intro ev parse dec benv hpost h hsome hpre payload hdec sv hsub htr hurl hkey
      fs hparse reqs hreqs calls hprep
    unfold dbBatchHandler
    rw [if_neg (fun hne => hne hpost)]
    rw [hsome]
    simp only [hpre, Bool.not_true, Bool.false_eq_true, if_false]
    simp only [hdec, hsub, htr, if_true, hurl, hkey, Bool.not_true, Bool.or_self,
      Bool.false_eq_true, if_false, hparse]
    have hgf : getField (JsVal.obj fs) (str "requests") = some (JsVal.arr reqs) := hreqs
    simp only [hgf, hprep]
  · intro ev parse dec benv hpost h hsome hpre payload hdec sv hsub htr hurl hkey
      v hparse hnn hnot
    unfold dbBatchHandler
    rw [if_neg (fun hne => hne hpost)]
    rw [hsome]
    simp only [hpre, Bool.not_true, Bool.false_eq_true, if_false]
    simp only [hdec, hsub, htr, if_true, hurl, hkey, Bool.not_true, Bool.or_self,
      Bool.false_eq_true, if_false, hparse]

/-- Witness for C9 (amended): a wrapped `{requests: [...]}` body proceeds to
the rewritten backend call; an object-mapping body is rejected with 400. -/
theorem batch_body_shape_witness :
    dbBatchHandler ⟨str "POST", some (str "Bearer t.p"), none, some (str "x")⟩
      (fun _ => some (JsVal.obj [(str "requests", JsVal.arr
        [JsVal.obj [(str "key", JsVal.jstr (str "clients")),
                    (str "endpoint", JsVal.jstr (str "clients?select=*"))]])]))
      (fun _ => some (JsVal.obj [(str "sub", JsVal.jstr (str "alice"))]))
      ⟨some (str "u"), some (str "k")⟩
      = Decision.fetchBatch
          [(some (JsVal.jstr (str "clients")),
            str "u/rest/v1/clients?select=*&user_id=eq.alice")] ∧
    dbBatchHandler ⟨str "POST", some (str "Bearer t.p"), none, some (str "x")⟩
      (fun _ => some (JsVal.obj [(str "clients", JsVal.jstr (str "clients?select=*"))]))
      (fun _ => some (JsVal.obj [(str "sub", JsVal.jstr (str "alice"))]))
      ⟨some (str "u"), some (str "k")⟩
      = Decision.respond 400
          (JsVal.obj [(str "error", JsVal.jstr (str "requests must be an array"))]) := by
  constructor
  · exact batch_body_shape.1
      ⟨str "POST", some (str "Bearer t.p"), none, some (str "x")⟩
      (fun _ => some (JsVal.obj [(str "requests", JsVal.arr
        [JsVal.obj [(str "key", JsVal.jstr (str "clients")),
                    (str "endpoint", JsVal.jstr (str "clients?select=*"))]])]))
      (fun _ => some (JsVal.obj [(str "sub", JsVal.jstr (str "alice"))]))
      ⟨some (str "u"), some (str "k")⟩
      rfl (str "Bearer t.p") rfl (by decide)
      (JsVal.obj [(str "sub", JsVal.jstr (str "alice"))]) rfl
      (JsVal.jstr (str "alice")) rfl (by decide) (by decide) (by decide)
      [(str "requests", JsVal.arr
        [JsVal.obj [(str "key", JsVal.jstr (str "clients")),
                    (str "endpoint", JsVal.jstr (str "clients?select=*"))]])] rfl
      [JsVal.obj [(str "key", JsVal.jstr (str "clients")),
                  (str "endpoint", JsVal.jstr (str "clients?select=*"))]] rfl
      [(some (JsVal.jstr (str "clients")),
        str "u/rest/v1/clients?select=*&user_id=eq.alice")] rfl
  · exact batch_body_shape.2
      ⟨str "POST", some (str "Bearer t.p"), none, some (str "x")⟩
      (fun _ => some (JsVal.obj [(str "clients", JsVal.jstr (str "clients?select=*"))]))
      (fun _ => some (JsVal.obj [(str "sub", JsVal.jstr (str "alice"))]))
      ⟨some (str "u"), some (str "k")⟩
      rfl (str "Bearer t.p") rfl (by decide)
      (JsVal.obj [(str "sub", JsVal.jstr (str "alice"))]) rfl
      (JsVal.jstr (str "alice")) rfl (by decide) (by decide) (by decide)
      (JsVal.obj [(str "clients", JsVal.jstr (str "clients?select=*"))]) rfl
      (by intro hq; cases hq)
      (by intro l hq; cases hq)

/-- Counterexample to claim C9 as stated: both body shapes the claim says are
accepted — a bare array of `{key, endpoint}` pairs, and an object mapping
key → endpoint — are rejected with HTTP 400 by the batch handler, because the
code only accepts `{"requests": [...]}`. -/
theorem batch_array_body_rejected_cex :
    dbBatchHandler ⟨str "POST", some (str "Bearer t.p"), none, some (str "x")⟩
      (fun _ => some (JsVal.arr
        [JsVal.obj [(str "key", JsVal.jstr (str "clients")),
                    (str "endpoint", JsVal.jstr (str "clients?select=*"))]]))
      (fun _ => some (JsVal.obj [(str "sub", JsVal.jstr (str "alice"))]))
      ⟨some (str "u"), some (str "k")⟩
      = Decision.respond 400
          (JsVal.obj [(str "error", JsVal.jstr (str "requests must be an array"))]) ∧
    dbBatchHandler ⟨str "POST", some (str "Bearer t.p"), none, some (str "x")⟩
      (fun _ => some (JsVal.obj [(str "clients", JsVal.jstr (str "clients?select=*"))]))
      (fun _ => some (JsVal.obj [(str "sub", JsVal.jstr (str "alice"))]))
      ⟨some (str "u"), some (str "k")⟩
      = Decision.respond 400
          (JsVal.obj [(str "error", JsVal.jstr (str "requests must be an array"))]) := by
  exact ⟨rfl, rfl⟩

/-! ## Claim theorems: soft-delete filtering of `getAll` (C10) -/

theorem splitAmp_ne_nil : ∀ s : Str, splitAmp s ≠ [] := by
  intro s
  match s with
  | [] => simp [splitAmp]
  | c :: rest =>
    unfold splitAmp
    by_cases hc : c = '&'
    · simp [hc]
    · simp only [hc, if_false]
      match h : splitAmp rest with
      | [] => simp
      | x :: t => simp

theorem splitAmp_cons (c : Char) (rest : Str) :
    splitAmp (c :: rest)
      = if c = '&' then [] :: splitAmp rest
        else match splitAmp rest with
          | [] => [[c]]
          | h :: t => (c :: h) :: t := rfl

theorem splitAmp_append (A B : Str) : splitAmp (A ++ '&' :: B) = splitAmp A ++ splitAmp B := by
  induction A with
  | nil =>
    rw [List.nil_append, splitAmp_cons]
    rfl
  | cons c rest ih =>
    rw [List.cons_append, splitAmp_cons, splitAmp_cons]
    by_cases hc : c = '&'
    · simp only [hc, if_true]
      rw [ih]
      rfl
    · simp only [hc, if_false]
      rw [ih]
      match h : splitAmp rest, splitAmp_ne_nil rest with
      | x :: t, _ => rfl

theorem afterQ_append {A B : Str} (h : ∀ c ∈ A, c ≠ '?') :
    afterQuestionMark (A ++ '?' :: B) = B := by
  induction A with
  | nil =>
    show afterQuestionMark ('?' :: B) = B
    unfold afterQuestionMark
    simp
  | cons c rest ih =>
    rw [List.cons_append]
    unfold afterQuestionMark
    rw [if_neg (h c (List.mem_cons_self _ _))]
    exact ih (fun d hd => h d (List.mem_cons_of_mem _ hd))

theorem softDeleteTables_no_qmark {table : Str} (htab : table ∈ softDeleteTables) :
    ∀ c ∈ table, c ≠ '?' := by
  simp only [softDeleteTables, List.mem_cons, List.not_mem_nil, or_false] at htab
  rcases htab with rfl | rfl | rfl | rfl | rfl <;> decide

theorem softDeleteTables_contains {table : Str} (htab : table ∈ softDeleteTables) :
    softDeleteTables.contains table = true := by
  simp only [softDeleteTables, List.mem_cons, List.not_mem_nil, or_false] at htab
  rcases htab with rfl | rfl | rfl | rfl | rfl <;> decide

theorem trashTables_no_qmark {table : Str} (htab : table ∈ trashTables) :
    ∀ c ∈ table, c ≠ '?' := by
  simp only [trashTables, List.mem_cons, List.not_mem_nil, or_false] at htab
  rcases htab with rfl | rfl | rfl | rfl <;> decide

theorem getAllEndpoint_split (db : Database) (table : Str)
    (htab : table ∈ softDeleteTables) :
    db.getAllEndpoint table
      = table ++ '?' :: ((str "user_id=eq." ++ db.userId) ++
          '&' :: str "deleted=eq.false&order=created_at.desc&select=*") := by
  unfold Database.getAllEndpoint
  rw [softDeleteTables_contains htab]
  simp only [if_true]
  rw [List.append_assoc, List.append_assoc, List.append_assoc]
  congr 1

theorem getTrashEndpoint_split (db : Database) (table : Str) :
    db.getTrashEndpoint table
      = table ++ ('?' :: str "user_id=eq.") ++ db.userId
          ++ str "&deleted=eq.true&order=updated_at.desc&select=*" := rfl

theorem parseEqFilters_getAll (db : Database) (table : Str)
    (htab : table ∈ softDeleteTables) :
    (str "deleted", str "false") ∈ parseEqFilters (db.getAllEndpoint table) := by
  unfold parseEqFilters
  rw [getAllEndpoint_split db table htab]
  rw [afterQ_append (softDeleteTables_no_qmark htab)]
  rw [splitAmp_append]
  rw [List.filterMap_append]
  apply List.mem_append_right
  decide

theorem parseEqFilters_getTrash (db : Database) (table : Str)
    (htab : table ∈ trashTables) :
    (str "deleted", str "true") ∈ parseEqFilters (db.getTrashEndpoint table) := by
  unfold parseEqFilters
  have he : db.getTrashEndpoint table
      = table ++ '?' :: ((str "user_id=eq." ++ db.userId) ++
          '&' :: str "deleted=eq.true&order=updated_at.desc&select=*") := by
    unfold Database.getTrashEndpoint
    rw [List.append_assoc, List.append_assoc]
    congr 1
  rw [he]
  rw [afterQ_append (trashTables_no_qmark htab)]
  rw [splitAmp_append]
  rw [List.filterMap_append]
  apply List.mem_append_right
  decide

/-- Claim C10: for every table in {clients, jobs, timesheets, invoices,
business}, `getAll` appends a `deleted=eq.false` filter to the read it issues,
so — under the spec-modelled `eq`-filter semantics of the backing store — a
record whose `deleted` flag is `true` is never present in the list `getAll`
returns; soft-deleted records are visible only through the dedicated trash
read, whose per-table endpoints filter `deleted=eq.true`. -/
theorem getAll_soft_delete_filter
    (db : Database) (table : Str) (htab : table ∈ softDeleteTables)
    (rows : List (List (Str × Str))) :
    (∀ row ∈ runQuery rows (db.getAllEndpoint table),
      row.lookup (str "deleted") ≠ some (str "true")) ∧
    (∀ tbl ∈ trashTables, ∀ row ∈ runQuery rows (db.getTrashEndpoint tbl),
      row.lookup (str "deleted") = some (str "true")) := by
  constructor
  · intro row hrow
    rw [runQuery, List.mem_filter] at hrow
    have hall := hrow.2
    unfold rowMatches at hall
    rw [List.all_eq_true] at hall
    have hdel := hall _ (parseEqFilters_getAll db table htab)
    rw [beq_iff_eq] at hdel
    intro hcontra
    rw [hcontra] at hdel
    injection hdel with hdel
    exact absurd hdel (by decide)
  · intro tbl htbl row hrow
    rw [runQuery, List.mem_filter] at hrow
    have hall := hrow.2
    unfold rowMatches at hall
    rw [List.all_eq_true] at hall
    have hdel := hall _ (parseEqFilters_getTrash db tbl htbl)
    rw [beq_iff_eq] at hdel
    exact hdel

/-- Witness for C10: a store holding one live and one soft-deleted `jobs` row
for `alice`; the `getAll` read returns only the live row, the trash read only
the deleted one. -/
theorem getAll_soft_delete_filter_witness :
    (∀ row ∈ runQuery
        [[(str "user_id", str "alice"), (str "deleted", str "false")],
         [(str "user_id", str "alice"), (str "deleted", str "true")]]
        ((Database.init (str "alice")).getAllEndpoint (str "jobs")),
      row.lookup (str "deleted") ≠ some (str "true")) ∧
    runQuery
        [[(str "user_id", str "alice"), (str "deleted", str "false")],
         [(str "user_id", str "alice"), (str "deleted", str "true")]]
        ((Database.init (str "alice")).getAllEndpoint (str "jobs"))
      = [[(str "user_id", str "alice"), (str "deleted", str "false")]] ∧
    runQuery
        [[(str "user_id", str "alice"), (str "deleted", str "false")],
         [(str "user_id", str "alice"), (str "deleted", str "true")]]
        ((Database.init (str "alice")).getTrashEndpoint (str "jobs"))
      = [[(str "user_id", str "alice"), (str "deleted", str "true")]] := by
  refine ⟨?_, by decide, by decide⟩
  exact (getAll_soft_delete_filter (Database.init (str "alice")) (str "jobs")
    (by decide)
    [[(str "user_id", str "alice"), (str "deleted", str "false")],
     [(str "user_id", str "alice"), (str "deleted", str "true")]]).1
